import Mathlib

/-!
Verification development for the pyATS topology testbed creator
(src/pyats/contrib/creators/topology.py).

The Python code is shallowly embedded: Python dicts become association
lists (insertion ordered, first-match lookup, as CPython guarantees),
Python sets become insertion-ordered duplicate-free lists (only
membership and extensional content matter to the properties proved
here), and Python exceptions become an explicit error type threaded
through Except.  IPv4 addresses are modelled as the natural number an
already-parsed ipaddress.IPv4Address denotes, and an ip_network as the
closed range of those numbers; the string-to-address parsing done by
the external ipaddress standard library is outside the model.  Where a
value is only ever formatted into a command string (the proxy-chain
synthesizer) the address stays a string, exactly as in the source.
-/

namespace Topo

/-- Error values standing for the Python exceptions the embedded code can raise. -/
inductive PyErr where
  | typeError
  | keyError
  | indexError
deriving Repr, DecidableEq

/-- List indexing, returning none out of range (Python list index / dict order access). -/
def lget {α : Type} : List α → Nat → Option α
  | [], _ => none
  | x :: _, 0 => some x
  | _ :: xs, n + 1 => lget xs n

/-- Replace the element at an index, leaving the list unchanged when out of range. -/
def lset {α : Type} : List α → Nat → α → List α
  | [], _, _ => []
  | _ :: xs, 0, v => v :: xs
  | x :: xs, n + 1, v => x :: lset xs n v

/-- First-match lookup in an association list: the value stored under a key
of a Python dict. -/
def alookup {α : Type} (l : List (String × α)) (k : String) : Option α :=
  match l with
  | [] => none
  | (k0, v) :: rest => if k0 = k then some v else alookup rest k

/-- Replace the value stored under a key, keeping its position (Python dict
assignment to an existing key). -/
def aupdate {α : Type} (l : List (String × α)) (k : String) (v : α) : List (String × α) :=
  match l with
  | [] => []
  | (k0, v0) :: rest => if k0 = k then (k0, v) :: rest else (k0, v0) :: aupdate rest k v

/-- Python dict assignment: overwrite in place when the key exists, append otherwise. -/
def aset {α : Type} (l : List (String × α)) (k : String) (v : α) : List (String × α) :=
  if (alookup l k).isSome then aupdate l k v else l ++ [(k, v)]

/-- Python set.add on the insertion-ordered duplicate-free list model of a set. -/
def setAdd (l : List String) (x : String) : List String :=
  if l.contains x then l else l ++ [x]

/-- Boolean string-prefix test on character lists. -/
def isPrefixB : List Char → List Char → Bool
  | [], _ => true
  | _ :: _, [] => false
  | a :: as, b :: bs => a = b && isPrefixB as bs

/-- Boolean contiguous-sublist test on character lists. -/
def isInfixOfB (needle : List Char) : List Char → Bool
  | [] => isPrefixB needle []
  | c :: cs => isPrefixB needle (c :: cs) || isInfixOfB needle cs

/-- Python substring membership: the expression needle in haystack on two strings. -/
def strIn (needle haystack : String) : Bool :=
  isInfixOfB needle.data haystack.data

/-- Tokenizer for whitespace-separated words over a character list, with an
accumulator holding the current word reversed. -/
def wsTokens : List Char → List Char → List String
  | [], acc => if acc.isEmpty then [] else [String.mk acc.reverse]
  | c :: cs, acc =>
      if c = ' ' || c = '\t' || c = '\n' then
        if acc.isEmpty then wsTokens cs []
        else String.mk acc.reverse :: wsTokens cs []
      else wsTokens cs (c :: acc)

/-- Python str.split() with no argument: split on whitespace runs, dropping
empty pieces. -/
def pySplitWs (s : String) : List String :=
  wsTokens s.data []

/-- Exact membership of a name in the whitespace-separated entries of the
configured exclusion string.  This definition follows the words of the
specification (an interface is dropped when it exactly matches an entry of
the exclusion interface list); the source instead tests raw substring
containment, and the two are compared in the claims below. -/
def excludeListExact (excl name : String) : Bool :=
  (pySplitWs excl).contains name

/-- Characters matched by the regex class [-\w] used by the domain filter. -/
def isWordChar (c : Char) : Bool :=
  c.isAlphanum || c = '_' || c = '-'

/-- The hostname-extraction regex of the source (first maximal run of
word-or-hyphen characters; the string is left unchanged when the regex does
not match, i.e. when it has no such character). -/
def domainFilter (s : String) : String :=
  let rest := s.data.dropWhile (fun c => !isWordChar c)
  match rest with
  | [] => s
  | _ => String.mk (rest.takeWhile isWordChar)

/-- An IPv4 address as the 32-bit value the external ipaddress library parses
it to. -/
abbrev IP := Nat

/-- An element of one of the address sets handled by the registry.  The LLDP
path can put Python None into such a set (when a neighbor carries no
management address at all), modelled as none. -/
abbrev Addr := Option IP

/-- An excluded network range (the result of ipaddress.ip_network): the
closed interval of addresses it contains. -/
structure Net where
  lo : IP
  hi : IP
deriving Repr, DecidableEq

/-- Membership of an IPv4 address in a network range (the Python expression
IPv4Address(ip) in net). -/
def ipInNet (ip : IP) (n : Net) : Bool :=
  decide (n.lo ≤ ip) && decide (ip ≤ n.hi)

/-- The configuration shared by the processing paths: the only-links flag,
the raw (never split) exclude-interfaces string, and the parsed excluded
network ranges. -/
structure Config where
  only_links : Bool
  exclude_interfaces : String
  exclude_networks : List Net
deriving Repr, DecidableEq

/-- One entry of the device registry (device_list).  Python stores it as a
dict whose keys differ between a genuinely discovered device and the
finder placeholder; a field is none when the corresponding key is absent.
For the os field the outer Option is key presence and the inner Option is
the Python None an unresolved OS is stored as. -/
structure DeviceFact where
  ports : List String
  ip : Option (List Addr)
  os : Option (Option String)
  finder : Option (String × List Addr)
  new_device : Bool
deriving Repr, DecidableEq

/-- The device registry: the device_list dict. -/
abbrev DeviceList := List (String × DeviceFact)

/-- One adjacency record of the connection ledger. -/
structure ConnEntry where
  dest_host : String
  dest_port : String
deriving Repr, DecidableEq

/-- The per-device connection ledger (device_connections): local interface
name to list of adjacency records. -/
abbrev ConnDict := List (String × List ConnEntry)

/-- Union of two address sets (Python set.union keeps existing elements and
appends the new ones). -/
def unionAddr (a b : List Addr) : List Addr :=
  a ++ b.filter (fun x => !a.contains x)

/-- Number of ledger records under a local interface matching a destination
host and port (the multiplicity the ledger's uniqueness guarantee is
about). -/
def countEntry (dc : ConnDict) (interface dest_host dest_port : String) : Nat :=
  (((alookup dc interface).getD []).filter
    (fun e => e.dest_host = dest_host && e.dest_port = dest_port)).length

/-- The OS marker search of the source (get_os).  The source returns from
inside the IOS branch, so the NX-OS test, although a separate if statement,
is only reached when neither field contains IOS; falling off the end
returns Python None. -/
def get_os (system_string platform_name : String) : Option String :=
  if strIn "IOS" system_string || strIn "IOS" platform_name then
    if strIn "XE" system_string || strIn "XE" platform_name then some "iosxe"
    else if strIn "XR" system_string || strIn "XR" platform_name then some "iosxr"
    else some "ios"
  else if strIn "NX-OS" system_string || strIn "NX-OS" platform_name then some "nxos"
  else none

/-- The int_address.difference_update(mgmt_address) step of
add_to_device_list: an address present in both sets is treated as a
management address and removed from the interface-address set. -/
def stripMgmt (int_address mgmt_address : List Addr) : List Addr :=
  int_address.filter (fun a => !mgmt_address.contains a)

/-- The else branch of the first phase of add_to_device_list: the existing
fact always gets the new port; a finder placeholder (new_device false) is
merged no further; otherwise the OS is filled from the guess only when the
stored OS is Python None, and the management addresses are unioned in.
The wildcard arm also absorbs the absent-os-key placeholder shape, which
the guard on new_device makes unreachable in the source. -/
def mergeFact (f : DeviceFact) (dest_port : String) (mgmt_address : List Addr)
    (os : Option String) : DeviceFact :=
  if !f.new_device then { f with ports := setAdd f.ports dest_port }
  else
    match f.os with
    | some none =>
        { f with
          ports := setAdd f.ports dest_port
          os := some os
          ip := some (unionAddr (f.ip.getD []) mgmt_address) }
    | _ =>
        { f with
          ports := setAdd f.ports dest_port
          ip := some (unionAddr (f.ip.getD []) mgmt_address) }

/-- The first phase of add_to_device_list (source lines 438 to 454): create
the destination fact or merge into the existing one. -/
def registerDest (device_list : DeviceList) (dest_host dest_port : String)
    (int_address mgmt_address : List Addr) (os : Option String)
    (discover_name : String) : DeviceList :=
  match alookup device_list dest_host with
  | none =>
      device_list ++ [(dest_host,
        { ports := [dest_port], ip := some mgmt_address, os := some os,
          finder := some (discover_name, stripMgmt int_address mgmt_address),
          new_device := true })]
  | some f => aupdate device_list dest_host (mergeFact f dest_port mgmt_address os)

/-- The second phase of add_to_device_list (source lines 456 to 461): ensure
an entry for the discovering device.  Note that the else branch of the
source updates the ports of dest_host, not of discover_name, exactly as
the Python does on line 461.  The unreachable fallback arm (dest_host was
inserted by the first phase) returns the list unchanged where Python would
raise. -/
def registerFinder (dl1 : DeviceList) (dest_host discover_name interface : String) :
    DeviceList :=
  match alookup dl1 discover_name with
  | none =>
      dl1 ++ [(discover_name,
        { ports := [interface], ip := none, os := none, finder := none,
          new_device := false })]
  | some _ =>
      match alookup dl1 dest_host with
      | some fd => aupdate dl1 dest_host { fd with ports := setAdd fd.ports interface }
      | none => dl1

/-- The registry merge operation add_to_device_list of the source, translated
branch for branch as the composition of its two phases. -/
def add_to_device_list (device_list : DeviceList) (dest_host dest_port : String)
    (int_address mgmt_address : List Addr) (os : Option String)
    (discover_name interface : String) : DeviceList :=
  registerFinder
    (registerDest device_list dest_host dest_port int_address mgmt_address os discover_name)
    dest_host discover_name interface

/-- The ledger operation add_to_device_connections of the source: create a
one-element bucket for a fresh local interface, otherwise append the new
record only when no record with the same destination host and port exists
(the for/else scan of the source).  The dev argument is only logged by the
source and is kept for fidelity. -/
def add_to_device_connections (device_connections : ConnDict)
    (dest_host dest_port interface dev : String) : ConnDict :=
  match alookup device_connections interface with
  | none =>
      device_connections
        ++ [(interface, [{ dest_host := dest_host, dest_port := dest_port }])]
  | some entries =>
      if entries.any (fun e => e.dest_host = dest_host && e.dest_port = dest_port) then
        device_connections
      else
        aupdate device_connections interface
          (entries ++ [{ dest_host := dest_host, dest_port := dest_port }])

/-- One entry of the parsed show cdp neighbors result (result of the
out-of-scope parser; fields the source reads unconditionally are plain,
fields read with .get are Option). -/
structure CdpEntry where
  system_name : Option String
  device_id : String
  port_id : String
  local_interface : String
  management_addresses : List IP
  interface_addresses : List IP
  software_version : String
  platform : String
deriving Repr, DecidableEq

/-- The destination host name computed by the CDP path: the system name when
present and non-empty (Python truthiness), otherwise the device id, then
stripped of its domain suffix. -/
def cdpDestHost (e : CdpEntry) : String :=
  let raw :=
    match e.system_name with
    | some s => if s = "" then e.device_id else s
    | none => e.device_id
  domainFilter raw

/-- The address-range exclusion test of the CDP path: some candidate
interface or management address lies in some excluded network (the two
product loops of the source, which only set a flag). -/
def addrExcludedCdp (cfg : Config) (e : CdpEntry) : Bool :=
  e.interface_addresses.any (fun ip => cfg.exclude_networks.any (fun n => ipInNet ip n))
    || e.management_addresses.any (fun ip => cfg.exclude_networks.any (fun n => ipInNet ip n))

/-- Processing of one CDP neighbor entry by _process_cdp_information: the
only-links filter, the two substring tests against the raw
exclude-interfaces string, the address-range exclusion, then the calls to
the registry and ledger operations.  testbed is the set of device names
already in the testbed. -/
def processCdpEntry (cfg : Config) (testbed : List String) (device_name : String)
    (e : CdpEntry) (dl : DeviceList) (dc : ConnDict) : DeviceList × ConnDict :=
  if cfg.only_links && !testbed.contains (cdpDestHost e) then (dl, dc)
  else if strIn e.local_interface cfg.exclude_interfaces then (dl, dc)
  else if strIn e.port_id cfg.exclude_interfaces then (dl, dc)
  else if addrExcludedCdp cfg e then (dl, dc)
  else
    (add_to_device_list dl (cdpDestHost e) e.port_id
       (e.interface_addresses.map some) (e.management_addresses.map some)
       (get_os e.software_version e.platform) device_name e.local_interface,
     add_to_device_connections dc (cdpDestHost e) e.port_id e.local_interface device_name)

/-- The loop of _process_cdp_information over the index entries of the parsed
result. -/
def process_cdp_information (cfg : Config) (testbed : List String) (device_name : String)
    (entries : List CdpEntry) (dl : DeviceList) (dc : ConnDict) : DeviceList × ConnDict :=
  entries.foldl (fun s e => processCdpEntry cfg testbed device_name e s.fst s.snd) (dl, dc)

/-- One LLDP neighbor record (fields of the parsed show lldp neighbors
result the source reads). -/
structure LldpNeighbor where
  management_address : Option IP
  management_address_v4 : Option IP
  system_description : String
deriving Repr, DecidableEq

/-- The per-port data of the LLDP result: its neighbors dict. -/
structure LldpPortData where
  neighbors : List (String × LldpNeighbor)
deriving Repr, DecidableEq

/-- The per-interface data of the LLDP result: its port_id dict. -/
structure LldpIfData where
  port_id : List (String × LldpPortData)
deriving Repr, DecidableEq

/-- The parsed show lldp neighbors result. -/
structure LldpResult where
  total_entries : Nat
  interfaces : List (String × LldpIfData)
deriving Repr, DecidableEq

/-- The management address selected by the LLDP path: management_address
with management_address_v4 as fallback. -/
def lldpMgmtAddr (n : LldpNeighbor) : Option IP :=
  match n.management_address with
  | some a => some a
  | none => n.management_address_v4

/-- The address-range exclusion test of the LLDP path: it only fires when an
address was found and exclusion ranges are configured. -/
def lldpAddrExcluded (cfg : Config) (n : LldpNeighbor) : Bool :=
  match lldpMgmtAddr n with
  | some a =>
      !cfg.exclude_networks.isEmpty && cfg.exclude_networks.any (fun net => ipInNet a net)
  | none => false

/-- Processing of one LLDP port entry by _process_lldp_information.  The
source takes the first key of the neighbors dict as destination host
(raising IndexError when there is none), strips its domain suffix, and
then looks the STRIPPED name up in the same dict again, so a
domain-suffixed neighbor key raises KeyError.  The exclusion-range check
only runs when an address was found and ranges are configured. -/
def lldpNeighborStep (cfg : Config) (testbed : List String) (device_name : String)
    (interface dest_port : String) (neighbors : List (String × LldpNeighbor))
    (dl : DeviceList) (dc : ConnDict) : Except PyErr (DeviceList × ConnDict) :=
  match neighbors with
  | [] => .error .indexError
  | (k0, _) :: _ =>
    if cfg.only_links && !testbed.contains (domainFilter k0) then .ok (dl, dc)
    else if strIn interface cfg.exclude_interfaces then .ok (dl, dc)
    else if strIn dest_port cfg.exclude_interfaces then .ok (dl, dc)
    else
      match alookup neighbors (domainFilter k0) with
      | none => .error .keyError
      | some neighbor =>
        if lldpAddrExcluded cfg neighbor then .ok (dl, dc)
        else
          .ok (add_to_device_list dl (domainFilter k0) dest_port [] [lldpMgmtAddr neighbor]
                 (get_os neighbor.system_description "") device_name interface,
               add_to_device_connections dc (domainFilter k0) dest_port interface device_name)

/-- The inner loop of _process_lldp_information over the ports of one local
interface. -/
def lldpPortsLoop (cfg : Config) (testbed : List String) (device_name interface : String) :
    List (String × LldpPortData) → DeviceList → ConnDict →
    Except PyErr (DeviceList × ConnDict)
  | [], dl, dc => .ok (dl, dc)
  | (dest_port, pd) :: rest, dl, dc =>
    match lldpNeighborStep cfg testbed device_name interface dest_port pd.neighbors dl dc with
    | .error e => .error e
    | .ok (dl', dc') => lldpPortsLoop cfg testbed device_name interface rest dl' dc'

/-- The outer loop of _process_lldp_information over the local interfaces. -/
def lldpIfacesLoop (cfg : Config) (testbed : List String) (device_name : String) :
    List (String × LldpIfData) → DeviceList → ConnDict →
    Except PyErr (DeviceList × ConnDict)
  | [], dl, dc => .ok (dl, dc)
  | (interface, idata) :: rest, dl, dc =>
    match lldpPortsLoop cfg testbed device_name interface idata.port_id dl dc with
    | .error e => .error e
    | .ok (dl', dc') => lldpIfacesLoop cfg testbed device_name rest dl' dc'

/-- The body of _process_lldp_information. -/
def process_lldp_information (cfg : Config) (testbed : List String) (device_name : String)
    (r : LldpResult) (dl : DeviceList) (dc : ConnDict) :
    Except PyErr (DeviceList × ConnDict) :=
  lldpIfacesLoop cfg testbed device_name r.interfaces dl dc

/-- One polled device's raw neighbor data as handed to
get_device_connections: the cdp and lldp results, each absent (or empty,
which the source treats the same through Python truthiness) as none. -/
structure DeviceData where
  cdp : Option (List CdpEntry)
  lldp : Option LldpResult
deriving Repr, DecidableEq

/-- The CDP half of get_device_connections: the empty device_connections
dict filled from the CDP result when one is present and truthy. -/
def cdpPhase (cfg : Config) (testbed : List String) (data : DeviceData)
    (device_name : String) (dl : DeviceList) : DeviceList × ConnDict :=
  match data.cdp with
  | some entries => process_cdp_information cfg testbed device_name entries dl []
  | none => (dl, [])

/-- The body of get_device_connections.  It fills a local device_connections
dict from the CDP result and then the LLDP result, but its return statement
is commented out in the source, so the function returns Python None and
the built dict is discarded; only the device_list mutation survives.  The
first component of the result is that returned value. -/
def get_device_connections (cfg : Config) (testbed : List String) (data : DeviceData)
    (device_name : String) (dl : DeviceList) :
    Except PyErr (Option ConnDict × DeviceList) :=
  match data.lldp with
  | some r =>
      if r.total_entries ≠ 0 then
        match process_lldp_information cfg testbed device_name r
            (cdpPhase cfg testbed data device_name dl).fst
            (cdpPhase cfg testbed data device_name dl).snd with
        | .error e => .error e
        | .ok (dl2, _) => .ok (none, dl2)
      else .ok (none, (cdpPhase cfg testbed data device_name dl).fst)
  | none => .ok (none, (cdpPhase cfg testbed data device_name dl).fst)

/-- The inner loop of process_neighbor_data over the devices of one pcall
result entry: conn_dict gets for every polled device the value
get_device_connections returned. -/
def pndDevices (cfg : Config) (testbed : List String) :
    List (String × DeviceData) → List (String × Option ConnDict) → DeviceList →
    Except PyErr (List (String × Option ConnDict) × DeviceList)
  | [], cd, dl => .ok (cd, dl)
  | (device, data) :: rest, cd, dl =>
    match get_device_connections cfg testbed data device dl with
    | .error e => .error e
    | .ok (c, dl') => pndDevices cfg testbed rest (aset cd device c) dl'

/-- The body of process_neighbor_data: the loop over result entries. -/
def process_neighbor_data (cfg : Config) (testbed : List String) :
    List (List (String × DeviceData)) → List (String × Option ConnDict) → DeviceList →
    Except PyErr (List (String × Option ConnDict) × DeviceList)
  | [], cd, dl => .ok (cd, dl)
  | entry :: rest, cd, dl =>
    match pndDevices cfg testbed entry cd dl with
    | .error e => .error e
    | .ok (cd', dl') => process_neighbor_data cfg testbed rest cd' dl'

/-- An interface of the testbed graph, identified by its device name and its
interface name (the identity of the genie Interface object). -/
abbrev Iface := String × String

/-- A link of the testbed graph: its name and the interfaces connected into
it.  Modelled from the spec for the external genie Link class: a link holds
the list of its member interfaces, and an interface's link attribute is
resolved to the first link containing it (none when no link does). -/
structure TLink where
  lname : String
  members : List Iface
deriving Repr, DecidableEq

/-- The links of the testbed, in creation order. -/
abbrev LinkState := List TLink

/-- The name given to a newly created link: Link_n where n is the number of
links existing at creation time. -/
def linkName (n : Nat) : String :=
  "Link_" ++ toString n

/-- Index of the first list element satisfying a predicate. -/
def firstIdx {α : Type} (p : α → Bool) : List α → Option Nat
  | [] => none
  | x :: xs => if p x then some 0 else (firstIdx p xs).map (· + 1)

/-- The link an interface belongs to, as the index of the first link
containing it (the interface.link attribute; none models Python None). -/
def linkIdx (st : LinkState) (ifc : Iface) : Option Nat :=
  firstIdx (fun l => l.members.contains ifc) st

/-- Append an interface to the collected list unless already present (the
membership-guarded append of _write_connections_to_testbed). -/
def insIface (acc : List Iface) (x : Iface) : List Iface :=
  if acc.contains x then acc else acc ++ [x]

/-- The collection loop of _write_connections_to_testbed: fold every
referenced remote interface not already collected into the accumulator. -/
def foldIns (acc : List Iface) (entries : List ConnEntry) : List Iface :=
  entries.foldl (fun a en => insIface a (en.dest_host, en.dest_port)) acc

/-- Processing of one local interface's ledger bucket by
_write_connections_to_testbed.  When the local interface has no link yet, a
new link is created from the local interface plus every referenced remote
interface not already collected into int_list; when it has one, that link
is extended with every referenced remote interface not already among the
link's members.  Note the source checks remote interfaces only against
int_list respectively link.interfaces, never against the links they may
already belong to. -/
def writeIfaceConns (dev : String) (st : LinkState) (ifn : String)
    (entries : List ConnEntry) : LinkState :=
  match linkIdx st (dev, ifn) with
  | none =>
      st ++ [{ lname := linkName st.length, members := foldIns [(dev, ifn)] entries }]
  | some i =>
      match lget st i with
      | some l => lset st i { lname := l.lname, members := foldIns l.members entries }
      | none => st

/-- The loop of _write_connections_to_testbed over one device's ledger. -/
def writeDevConns (st : LinkState) (dev : String) (cd : ConnDict) : LinkState :=
  cd.foldl (fun s kv => writeIfaceConns dev s kv.fst kv.snd) st

/-- The body of _write_connections_to_testbed: the loop over the devices of
the connection dict.  Iterating a Python None value (which is what
process_neighbor_data stores, the return of get_device_connections being
commented out) raises TypeError. -/
def write_connections_to_testbed :
    List (String × Option ConnDict) → LinkState → Except PyErr LinkState
  | [], st => .ok st
  | (_, none) :: _, _ => .error .typeError
  | (dev, some cd) :: rest, st => write_connections_to_testbed rest (writeDevConns st dev cd)

/-- One hop of a proxy chain: the device keyed as device in the source's
step dicts, and the ssh command to run. -/
structure Step where
  device : String
  command : String
deriving Repr, DecidableEq

/-- The shapes a stored proxy attribute can have: a bare proxy name, an
ordered list of hop steps, or Python None stored under the key. -/
inductive ProxyVal where
  | pstr (s : String)
  | plist (steps : List Step)
  | pnone
deriving Repr, DecidableEq

/-- One connection definition of a testbed device: protocol, address, and
the proxy attribute (none when the key is absent). -/
structure ConnDetail where
  protocol : String
  ip : String
  proxy : Option ProxyVal
deriving Repr, DecidableEq

/-- What write_proxy_chain returns: a bare device name or a hop-step list. -/
inductive ProxyResult where
  | rname (s : String)
  | rsteps (steps : List Step)
deriving Repr, DecidableEq

/-- The connection-selection loop of write_proxy_chain: the first connection
that is not the defaults entry, has protocol ssh and carries a proxy key;
the result is its index, its address and its proxy value. -/
def findSshProxy : List (String × ConnDetail) → Option (Nat × String × ProxyVal)
  | [] => none
  | (name, d) :: rest =>
    if name = "defaults" then
      (findSshProxy rest).map (fun t => (t.fst + 1, t.snd))
    else
      match d.proxy with
      | some pv =>
          if d.protocol = "ssh" then some (0, d.ip, pv)
          else (findSshProxy rest).map (fun t => (t.fst + 1, t.snd))
      | none => (findSshProxy rest).map (fun t => (t.fst + 1, t.snd))

/-- Overwrite the proxy value of the connection at an index (the in-place
mutation the source performs on the shared list object). -/
def setProxyAt (conns : List (String × ConnDetail)) (j : Nat) (v : ProxyVal) :
    List (String × ConnDetail) :=
  match lget conns j with
  | some (n, d) => lset conns j (n, { d with proxy := some v })
  | none => conns

/-- The body of write_proxy_chain.  conns are the finder device's
connections, user its default username, ip the target interface address.
In the list case the source mutates the stored list in place (rewriting the
last step's command and appending the finder hop) and returns that same
list, so the updated connections are part of the result; taking the last
element of an empty list raises IndexError.  In the string case a fresh
two-step chain is returned and the stored data is untouched. -/
def write_proxy_chain (conns : List (String × ConnDetail))
    (finder_name user ip : String) :
    Except PyErr (ProxyResult × List (String × ConnDetail)) :=
  match findSshProxy conns with
  | none => .ok (.rname finder_name, conns)
  | some (j, conn_ip, pv) =>
    match pv with
    | .pnone => .ok (.rname finder_name, conns)
    | .plist steps =>
        match steps.getLast? with
        | none => .error .indexError
        | some lastStep =>
            let ext := steps.dropLast
              ++ [{ device := lastStep.device,
                    command := "ssh " ++ user ++ "@" ++ conn_ip },
                  { device := finder_name,
                    command := "ssh " ++ user ++ "@" ++ ip }]
            .ok (.rsteps ext, setProxyAt conns j (.plist ext))
    | .pstr pname =>
        .ok (.rsteps [{ device := pname, command := "ssh " ++ conn_ip },
                      { device := finder_name,
                        command := "ssh " ++ user ++ "@" ++ ip }], conns)

/-- Example configuration with one excluded interface entry, used by the
concrete evaluations below. -/
def cfgEth01 : Config := ⟨false, "Ethernet0/1", []⟩

/-- Example configuration with no exclusions. -/
def cfgPlain : Config := ⟨false, "", []⟩

/-- Example CDP entry whose local interface Ethernet0 is a strict substring
of the excluded entry Ethernet0/1. -/
def entryEth0 : CdpEntry := ⟨none, "R9", "E9", "Ethernet0", [], [], "", ""⟩

/-- Example LLDP neighbor carrying no addresses. -/
def nbBare : LldpNeighbor := ⟨none, none, ""⟩

/-- Example configuration excluding the address range 100 to 200. -/
def cfgRange : Config := ⟨false, "", [⟨100, 200⟩]⟩

/-- Example CDP entry whose management address 150 lies in the excluded
range of cfgRange. -/
def entryMgmt150 : CdpEntry := ⟨none, "R2", "E2", "E1", [150], [], "", ""⟩

/-- Example LLDP neighbor whose management address 150 lies in the excluded
range of cfgRange. -/
def nb150 : LldpNeighbor := ⟨some 150, none, ""⟩

/-- Example neighbor data of one polled device: a single clean CDP entry and
no LLDP result. -/
def dataR1 : DeviceData := ⟨some [⟨none, "R2", "E2", "E1", [], [], "", ""⟩], none⟩

/-- Example connection list of a finder device reached through a one-step
proxy chain. -/
def connsJump : List (String × ConnDetail) :=
  [("sshj", ⟨"ssh", "10.0.0.1", some (.plist [⟨"jump1", "ssh 10.0.0.1"⟩])⟩)]

/-- Example connection list of a finder device whose ssh connection carries
a bare proxy name. -/
def connsStr : List (String × ConnDetail) :=
  [("ssh1", ⟨"ssh", "10.1.1.1", some (.pstr "jump1")⟩)]

/-- The every-interface-in-at-most-one-link invariant, phrased through the
link resolution used by the code itself: every membership of an interface
in the link stored at an index is found by linkIdx at exactly that index
(so no interface can be a member of two links). -/
def InOne (st : LinkState) : Prop :=
  ∀ k l ifc, lget st k = some l → ifc ∈ l.members → linkIdx st ifc = some k

/-- The side condition under which one _write_connections_to_testbed step
preserves the link invariant: every remote interface referenced by the
bucket either belongs to no link yet or already resolves to the same link
as the local interface. -/
def GoodIfaceStep (st : LinkState) (dev ifn : String) (es : List ConnEntry) : Prop :=
  ∀ en ∈ es,
    linkIdx st (en.dest_host, en.dest_port) = none
      ∨ linkIdx st (en.dest_host, en.dest_port) = linkIdx st (dev, ifn)

/-- GoodIfaceStep holding at every step of one device's ledger processing,
each step evaluated in the state the previous steps produced. -/
def GoodDevRun : LinkState → String → List (String × List ConnEntry) → Prop
  | _, _, [] => True
  | st, dev, (ifn, es) :: rest =>
      GoodIfaceStep st dev ifn es ∧ GoodDevRun (writeIfaceConns dev st ifn es) dev rest

/-- GoodDevRun holding at every device of the connection dict, each evaluated
in the state the previous devices produced. -/
def GoodRun : LinkState → List (String × Option ConnDict) → Prop
  | _, [] => True
  | _, (_, none) :: _ => True
  | st, (dev, some cd) :: rest => GoodDevRun st dev cd ∧ GoodRun (writeDevConns st dev cd) rest

/-- Boolean list containment agrees with membership. -/
theorem contains_iff_mem {α : Type} [BEq α] [LawfulBEq α] (l : List α) (x : α) :
    l.contains x = true ↔ x ∈ l := by
  induction l with
  | nil => simp
  | cons a as ih =>
      simp only [List.contains_cons, Bool.or_eq_true, beq_iff_eq, List.mem_cons, ih]

/-- An index holding a value is in range. -/
theorem lget_some_lt {α : Type} {l : List α} {k : Nat} {x : α} (h : lget l k = some x) :
    k < l.length := by
  induction l generalizing k with
  | nil => simp [lget] at h
  | cons a as ih =>
      cases k with
      | zero => simp
      | succ n =>
          simp only [lget] at h
          exact Nat.succ_lt_succ (ih h)

/-- Out-of-range indices hold nothing. -/
theorem lget_none_of_ge {α : Type} {l : List α} {k : Nat} (h : l.length ≤ k) :
    lget l k = none := by
  induction l generalizing k with
  | nil => cases k <;> rfl
  | cons a as ih =>
      cases k with
      | zero => simp at h
      | succ n => exact ih (Nat.le_of_succ_le_succ h)

/-- Indexing an append inside the left part. -/
theorem lget_append_left {α : Type} {l t : List α} {k : Nat} (h : k < l.length) :
    lget (l ++ t) k = lget l k := by
  induction l generalizing k with
  | nil => simp at h
  | cons a as ih =>
      cases k with
      | zero => rfl
      | succ n => exact ih (Nat.lt_of_succ_lt_succ h)

/-- Indexing a one-element append at the old length. -/
theorem lget_append_len {α : Type} (l : List α) (x : α) :
    lget (l ++ [x]) l.length = some x := by
  induction l with
  | nil => rfl
  | cons a as ih => exact ih

/-- Setting preserves length. -/
theorem lset_length {α : Type} (l : List α) (k : Nat) (v : α) :
    (lset l k v).length = l.length := by
  induction l generalizing k with
  | nil => rfl
  | cons a as ih => cases k with
      | zero => rfl
      | succ n => simp only [lset, List.length_cons, ih n]

/-- Reading back a set index in range. -/
theorem lget_lset_self {α : Type} {l : List α} {k : Nat} (v : α) (h : k < l.length) :
    lget (lset l k v) k = some v := by
  induction l generalizing k with
  | nil => simp at h
  | cons a as ih =>
      cases k with
      | zero => rfl
      | succ n => exact ih (Nat.lt_of_succ_lt_succ h)

/-- Reading any other index after a set. -/
theorem lget_lset_ne {α : Type} {l : List α} {k j : Nat} (v : α) (h : j ≠ k) :
    lget (lset l k v) j = lget l j := by
  induction l generalizing k j with
  | nil => rfl
  | cons a as ih =>
      cases k with
      | zero =>
          cases j with
          | zero => exact absurd rfl h
          | succ m => rfl
      | succ n =>
          cases j with
          | zero => rfl
          | succ m => exact ih (fun hh => h (by rw [hh]))

/-- Lookup distributes over append when the key is found on the left. -/
theorem alookup_append_some {α : Type} {l : List (String × α)} {k : String} {x : α}
    (t : List (String × α)) (h : alookup l k = some x) : alookup (l ++ t) k = some x := by
  induction l with
  | nil => simp [alookup] at h
  | cons kv rest ih =>
      obtain ⟨k0, v⟩ := kv
      simp only [alookup] at h ⊢
      by_cases hk : k0 = k
      · simpa [hk] using h
      · simp only [hk, if_false] at h ⊢
        exact ih h

/-- Lookup falls through an append when the key is absent on the left. -/
theorem alookup_append_none {α : Type} {l : List (String × α)} {k : String}
    (t : List (String × α)) (h : alookup l k = none) : alookup (l ++ t) k = alookup t k := by
  induction l with
  | nil => rfl
  | cons kv rest ih =>
      obtain ⟨k0, v⟩ := kv
      simp only [alookup] at h ⊢
      by_cases hk : k0 = k
      · simp [hk] at h
      · simp only [hk, if_false] at h ⊢
        exact ih h

/-- Updating an existing key makes lookup return the new value. -/
theorem alookup_aupdate_self {α : Type} {l : List (String × α)} {k : String} {x : α}
    (v : α) (h : alookup l k = some x) : alookup (aupdate l k v) k = some v := by
  induction l with
  | nil => simp [alookup] at h
  | cons kv rest ih =>
      obtain ⟨k0, v0⟩ := kv
      simp only [alookup, aupdate] at h ⊢
      by_cases hk : k0 = k
      · simp [alookup, hk]
      · simp only [hk, if_false, alookup] at h ⊢
        exact ih h

/-- Updating one key leaves lookups of other keys unchanged. -/
theorem alookup_aupdate_ne {α : Type} (l : List (String × α)) {k k' : String}
    (v : α) (h : k' ≠ k) : alookup (aupdate l k v) k' = alookup l k' := by
  induction l with
  | nil => rfl
  | cons kv rest ih =>
      obtain ⟨k0, v0⟩ := kv
      simp only [aupdate, alookup]
      by_cases hk : k0 = k
      · subst hk
        simp only [if_true, alookup]
        have : ¬k0 = k' := fun hh => h (hh ▸ rfl)
        simp [this]
      · simp only [hk, if_false, alookup]
        by_cases hk' : k0 = k'
        · simp [hk']
        · simp [hk', ih]

/-- Characterization of a found first index: the predicate holds there and at
no earlier index. -/
theorem firstIdx_eq_some_iff {α : Type} (p : α → Bool) (l : List α) (k : Nat) :
    firstIdx p l = some k ↔
      (∃ x, lget l k = some x ∧ p x = true)
        ∧ ∀ j y, j < k → lget l j = some y → p y = false := by
  induction l generalizing k with
  | nil =>
      simp only [firstIdx]
      constructor
      · intro h; exact absurd h (by simp)
      · rintro ⟨⟨x, hx, _⟩, _⟩; simp [lget] at hx
  | cons a as ih =>
      simp only [firstIdx]
      by_cases hp : p a = true
      · simp only [hp, if_true]
        constructor
        · intro h
          injection h with h
          subst h
          exact ⟨⟨a, rfl, hp⟩, fun j y hj _ => absurd hj (Nat.not_lt_zero j)⟩
        · rintro ⟨⟨x, hx, hpx⟩, hmin⟩
          cases k with
          | zero => rfl
          | succ n =>
              have := hmin 0 a (Nat.succ_pos n) rfl
              rw [hp] at this
              exact absurd this (by simp)
      · have hp' : p a = false := by
          cases hpa : p a
          · rfl
          · exact absurd hpa hp
        rw [if_neg hp]
        cases k with
        | zero =>
            constructor
            · intro h
              cases hf : firstIdx p as with
              | none => rw [hf] at h; exact absurd h (by simp)
              | some m => rw [hf] at h; simp at h
            · rintro ⟨⟨x, hx, hpx⟩, _⟩
              have hxa : x = a := by
                have : some a = some x := hx
                exact (Option.some.inj this).symm
              rw [hxa, hp'] at hpx
              exact absurd hpx (by simp)
        | succ n =>
            constructor
            · intro h
              have h' : firstIdx p as = some n := by
                cases hf : firstIdx p as with
                | none => rw [hf] at h; exact absurd h (by simp)
                | some m =>
                    rw [hf] at h
                    have hm : m + 1 = n + 1 := Option.some.inj h
                    rw [Nat.succ.inj hm]
              obtain ⟨⟨x, hx, hpx⟩, hmin⟩ := (ih n).mp h'
              refine ⟨⟨x, hx, hpx⟩, ?_⟩
              intro j y hj hy
              cases j with
              | zero =>
                  have hya : y = a := (Option.some.inj hy).symm
                  rw [hya]; exact hp'
              | succ m => exact hmin m y (Nat.lt_of_succ_lt_succ hj) hy
            · rintro ⟨⟨x, hx, hpx⟩, hmin⟩
              have h' : firstIdx p as = some n := (ih n).mpr
                ⟨⟨x, hx, hpx⟩,
                 fun j y hj hy => hmin (j + 1) y (Nat.succ_lt_succ hj) hy⟩
              rw [h']
              rfl

/-- A first index is absent exactly when the predicate holds nowhere. -/
theorem firstIdx_eq_none_iff {α : Type} (p : α → Bool) (l : List α) :
    firstIdx p l = none ↔ ∀ j y, lget l j = some y → p y = false := by
  induction l with
  | nil =>
      constructor
      · intro _ j y hy
        cases j <;> exact absurd hy (by simp [lget])
      · intro _; rfl
  | cons a as ih =>
      simp only [firstIdx]
      by_cases hp : p a = true
      · rw [if_pos hp]
        constructor
        · intro h; exact absurd h (by simp)
        · intro h
          have := h 0 a rfl
          rw [hp] at this
          exact absurd this (by simp)
      · have hp' : p a = false := by
          cases hpa : p a
          · rfl
          · exact absurd hpa hp
        rw [if_neg hp]
        constructor
        · intro h j y hy
          have h' : firstIdx p as = none := by
            cases hf : firstIdx p as with
            | none => rfl
            | some m => rw [hf] at h; exact absurd h (by simp)
          cases j with
          | zero =>
              have hya : y = a := (Option.some.inj hy).symm
              rw [hya]; exact hp'
          | succ m => exact ih.mp h' m y hy
        · intro h
          have h' : firstIdx p as = none :=
            ih.mpr (fun j y hy => h (j + 1) y hy)
          rw [h']
          rfl

/-- Guarded append is an extensional insertion. -/
theorem mem_insIface_iff (acc : List Iface) (y x : Iface) :
    x ∈ insIface acc y ↔ x ∈ acc ∨ x = y := by
  unfold insIface
  cases hc : acc.contains y with
  | true =>
      simp only [if_true]
      constructor
      · exact Or.inl
      · rintro (h | h)
        · exact h
        · rw [h]; exact (contains_iff_mem acc y).mp hc
  | false =>
      simp only [Bool.false_eq_true, if_false, List.mem_append, List.mem_singleton]

/-- Unfolding one collection step. -/
theorem foldIns_cons (acc : List Iface) (en : ConnEntry) (rest : List ConnEntry) :
    foldIns acc (en :: rest) = foldIns (insIface acc (en.dest_host, en.dest_port)) rest := rfl

/-- Collected interfaces survive further collection. -/
theorem mem_foldIns_of_mem {acc : List Iface} {x : Iface} (es : List ConnEntry)
    (h : x ∈ acc) : x ∈ foldIns acc es := by
  induction es generalizing acc with
  | nil => exact h
  | cons en rest ih =>
      rw [foldIns_cons]
      exact ih ((mem_insIface_iff _ _ _).mpr (Or.inl h))

/-- Every referenced remote interface is collected. -/
theorem mem_foldIns_entry {acc : List Iface} {en : ConnEntry} (es : List ConnEntry)
    (h : en ∈ es) : (en.dest_host, en.dest_port) ∈ foldIns acc es := by
  induction es generalizing acc with
  | nil => exact absurd h (List.not_mem_nil en)
  | cons e0 rest ih =>
      rcases List.mem_cons.mp h with h0 | hr
      · subst h0
        rw [foldIns_cons]
        exact mem_foldIns_of_mem rest ((mem_insIface_iff _ _ _).mpr (Or.inr rfl))
      · rw [foldIns_cons]
        exact ih hr

/-- Anything collected came from the accumulator or from a referenced remote
interface. -/
theorem mem_foldIns_src {acc : List Iface} {x : Iface} {es : List ConnEntry}
    (h : x ∈ foldIns acc es) :
    x ∈ acc ∨ ∃ en ∈ es, x = (en.dest_host, en.dest_port) := by
  induction es generalizing acc with
  | nil => exact Or.inl h
  | cons en rest ih =>
      rw [foldIns_cons] at h
      rcases ih h with hacc | ⟨en', hen', hx⟩
      · rcases (mem_insIface_iff _ _ _).mp hacc with h1 | h2
        · exact Or.inl h1
        · exact Or.inr ⟨en, List.mem_cons_self en rest, h2⟩
      · exact Or.inr ⟨en', List.mem_cons_of_mem en hen', hx⟩

/-- Boolean list containment is false exactly on non-members. -/
theorem contains_false_iff {α : Type} [BEq α] [LawfulBEq α] (l : List α) (x : α) :
    l.contains x = false ↔ x ∉ l := by
  cases hc : l.contains x with
  | true =>
      simp only [Bool.true_eq_false, false_iff, not_not]
      exact (contains_iff_mem l x).mp hc
  | false =>
      simp only [true_iff]
      intro hmem
      rw [(contains_iff_mem l x).mpr hmem] at hc
      exact absurd hc (by simp)

/-- A found first index survives appending on the right. -/
theorem firstIdx_append_some {α : Type} (p : α → Bool) {l : List α} {k : Nat}
    (t : List α) (h : firstIdx p l = some k) : firstIdx p (l ++ t) = some k := by
  induction l generalizing k with
  | nil => exact absurd h (by simp [firstIdx])
  | cons a as ih =>
      simp only [List.cons_append, List.append_eq, firstIdx] at h ⊢
      by_cases hp : p a = true
      · rw [if_pos hp] at h ⊢; exact h
      · rw [if_neg hp] at h ⊢
        cases hf : firstIdx p as with
        | none => rw [hf] at h; exact absurd h (by simp)
        | some m =>
            rw [hf] at h
            have hk : m + 1 = k := Option.some.inj h
            rw [ih hf, ← hk]
            rfl

/-- Appending one element satisfying the predicate after a list on which it
never holds puts the first index at the old length. -/
theorem firstIdx_append_one {α : Type} (p : α → Bool) {l : List α} (a : α)
    (h : firstIdx p l = none) (hpa : p a = true) :
    firstIdx p (l ++ [a]) = some l.length := by
  induction l with
  | nil => simp [firstIdx, hpa]
  | cons b bs ih =>
      simp only [firstIdx] at h
      simp only [List.cons_append, List.append_eq, firstIdx, List.length_cons]
      by_cases hp : p b = true
      · rw [if_pos hp] at h; exact absurd h (by simp)
      · rw [if_neg hp] at h ⊢
        have h' : firstIdx p bs = none := by
          cases hf : firstIdx p bs with
          | none => rfl
          | some m => rw [hf] at h; exact absurd h (by simp)
        rw [ih h']
        rfl

/-- Unfolding of writeIfaceConns when the local interface has no link: a new
link is appended. -/
theorem writeIfaceConns_of_none {dev st ifn es} (h : linkIdx st (dev, ifn) = none) :
    writeIfaceConns dev st ifn es
      = st ++ [{ lname := linkName st.length, members := foldIns [(dev, ifn)] es }] := by
  unfold writeIfaceConns
  rw [h]

/-- Unfolding of writeIfaceConns when the local interface has a link: that
link is extended in place. -/
theorem writeIfaceConns_of_some {dev st ifn es i l} (h : linkIdx st (dev, ifn) = some i)
    (hl : lget st i = some l) :
    writeIfaceConns dev st ifn es
      = lset st i { lname := l.lname, members := foldIns l.members es } := by
  unfold writeIfaceConns
  rw [h]
  dsimp only
  rw [hl]

/-- One write step only grows links and never renames or removes them. -/
theorem step_mono (dev : String) {st : LinkState} (ifn : String) (es : List ConnEntry)
    {k : Nat} {l : TLink} (h : lget st k = some l) :
    ∃ l', lget (writeIfaceConns dev st ifn es) k = some l' ∧ l'.lname = l.lname ∧
      ∀ x ∈ l.members, x ∈ l'.members := by
  cases hm : linkIdx st (dev, ifn) with
  | none =>
      rw [writeIfaceConns_of_none hm]
      exact ⟨l, by rw [lget_append_left (lget_some_lt h)]; exact h, rfl, fun x hx => hx⟩
  | some i =>
      cases hl : lget st i with
      | none =>
          obtain ⟨⟨x0, hx0, _⟩, _⟩ := (firstIdx_eq_some_iff _ _ _).mp hm
          rw [hx0] at hl
          exact absurd hl (by simp)
      | some l0 =>
          rw [writeIfaceConns_of_some hm hl]
          by_cases hk : k = i
          · subst hk
            have hll : l0 = l := Option.some.inj (hl ▸ h)
            refine ⟨{ lname := l0.lname, members := foldIns l0.members es },
              lget_lset_self _ (lget_some_lt h), by rw [hll], ?_⟩
            intro x hx
            exact mem_foldIns_of_mem _ (hll ▸ hx)
          · exact ⟨l, by rw [lget_lset_ne _ hk]; exact h, rfl, fun x hx => hx⟩

/-- After one write step the local interface and every referenced remote
interface lie together in some link. -/
theorem step_shares (dev : String) (st : LinkState) (ifn : String) (es : List ConnEntry) :
    ∃ k l, lget (writeIfaceConns dev st ifn es) k = some l ∧ (dev, ifn) ∈ l.members ∧
      ∀ en ∈ es, (en.dest_host, en.dest_port) ∈ l.members := by
  cases hm : linkIdx st (dev, ifn) with
  | none =>
      rw [writeIfaceConns_of_none hm]
      refine ⟨st.length, _, lget_append_len st _, ?_, ?_⟩
      · exact mem_foldIns_of_mem es (List.mem_singleton.mpr rfl)
      · intro en hen
        exact mem_foldIns_entry es hen
  | some i =>
      obtain ⟨⟨l0, hl0, hpl0⟩, _⟩ := (firstIdx_eq_some_iff _ _ _).mp hm
      rw [writeIfaceConns_of_some hm hl0]
      refine ⟨i, _, lget_lset_self _ (lget_some_lt hl0), ?_, ?_⟩
      · exact mem_foldIns_of_mem es ((contains_iff_mem _ _).mp hpl0)
      · intro en hen
        exact mem_foldIns_entry es hen

/-- One write step preserves the at-most-one-link invariant under its good
side condition. -/
theorem step_inone {dev : String} {st : LinkState} {ifn : String} {es : List ConnEntry}
    (h : InOne st) (hg : GoodIfaceStep st dev ifn es) :
    InOne (writeIfaceConns dev st ifn es) := by
  intro k l x hk hx
  cases hm : linkIdx st (dev, ifn) with
  | none =>
      rw [writeIfaceConns_of_none hm] at hk ⊢
      rcases Nat.lt_trichotomy k st.length with hlt | heq | hgt
      · rw [lget_append_left hlt] at hk
        exact firstIdx_append_some _ _ (h k l x hk hx)
      · subst heq
        rw [lget_append_len] at hk
        have hl : l = { lname := linkName st.length, members := foldIns [(dev, ifn)] es } :=
          (Option.some.inj hk).symm
        rw [hl] at hx
        have hnone : linkIdx st x = none := by
          rcases mem_foldIns_src hx with hx0 | ⟨en, hen, hxr⟩
          · rw [List.mem_singleton.mp hx0]
            exact hm
          · rcases hg en hen with hn | hs
            · rw [hxr]; exact hn
            · rw [hxr, hs, hm]
        refine firstIdx_append_one _ _ hnone ?_
        exact (contains_iff_mem _ _).mpr hx
      · have hlt2 := lget_some_lt hk
        rw [List.length_append, List.length_singleton] at hlt2
        omega
  | some i =>
      obtain ⟨⟨l0, hl0, hpl0⟩, hmin0⟩ := (firstIdx_eq_some_iff _ _ _).mp hm
      have hilt : i < st.length := lget_some_lt hl0
      rw [writeIfaceConns_of_some hm hl0] at hk ⊢
      by_cases hki : k = i
      · subst hki
        rw [lget_lset_self _ hilt] at hk
        have hl : l = { lname := l0.lname, members := foldIns l0.members es } :=
          (Option.some.inj hk).symm
        rw [hl] at hx
        apply (firstIdx_eq_some_iff _ _ _).mpr
        refine ⟨⟨_, lget_lset_self _ hilt, (contains_iff_mem _ _).mpr hx⟩, ?_⟩
        intro j y hj hy
        rw [lget_lset_ne _ (Nat.ne_of_lt hj)] at hy
        rcases mem_foldIns_src hx with hx0 | ⟨en, hen, hxr⟩
        · obtain ⟨_, hminx⟩ := (firstIdx_eq_some_iff _ _ _).mp (h k l0 x hl0 hx0)
          exact hminx j y hj hy
        · rcases hg en hen with hn | hs
          · exact (firstIdx_eq_none_iff _ _).mp (hxr ▸ hn) j y hy
          · have hxi : linkIdx st x = some k := by rw [hxr, hs, hm]
            obtain ⟨_, hminx⟩ := (firstIdx_eq_some_iff _ _ _).mp hxi
            exact hminx j y hj hy
      · rw [lget_lset_ne _ hki] at hk
        have hxk : linkIdx st x = some k := h k l x hk hx
        obtain ⟨_, hminx⟩ := (firstIdx_eq_some_iff _ _ _).mp hxk
        apply (firstIdx_eq_some_iff _ _ _).mpr
        refine ⟨⟨l, by rw [lget_lset_ne _ hki]; exact hk,
          (contains_iff_mem _ _).mpr hx⟩, ?_⟩
        intro j y hj hy
        by_cases hji : j = i
        · rw [hji, lget_lset_self _ hilt] at hy
          have hy' : y = { lname := l0.lname, members := foldIns l0.members es } :=
            (Option.some.inj hy).symm
          rw [hy']
          have hnm : x ∉ foldIns l0.members es := by
            intro hmem
            rcases mem_foldIns_src hmem with hx0 | ⟨en, hen, hxr⟩
            · have hxi : linkIdx st x = some i := h i l0 x hl0 hx0
              rw [hxk] at hxi
              exact hki (Option.some.inj hxi)
            · rcases hg en hen with hn | hs
              · rw [← hxr, hxk] at hn
                exact absurd hn (by simp)
              · have hxi : linkIdx st x = some i := by rw [hxr, hs, hm]
                rw [hxk] at hxi
                exact hki (Option.some.inj hxi)
          exact (contains_false_iff _ _).mpr hnm
        · rw [lget_lset_ne _ hji] at hy
          exact hminx j y hj hy

/-- Unfolding of an empty per-device write. -/
theorem writeDevConns_nil (st : LinkState) (dev : String) :
    writeDevConns st dev [] = st := rfl

/-- Unfolding of one per-device write step. -/
theorem writeDevConns_cons (st : LinkState) (dev ifn : String) (es : List ConnEntry)
    (rest : List (String × List ConnEntry)) :
    writeDevConns st dev ((ifn, es) :: rest)
      = writeDevConns (writeIfaceConns dev st ifn es) dev rest := rfl

/-- Processing one device's ledger only grows links. -/
theorem devrun_mono {st : LinkState} {dev : String} {cd : List (String × List ConnEntry)}
    {k : Nat} {l : TLink} (h : lget st k = some l) :
    ∃ l', lget (writeDevConns st dev cd) k = some l' ∧ l'.lname = l.lname ∧
      ∀ x ∈ l.members, x ∈ l'.members := by
  induction cd generalizing st l with
  | nil => exact ⟨l, h, rfl, fun x hx => hx⟩
  | cons p rest ih =>
      obtain ⟨ifn, es⟩ := p
      rw [writeDevConns_cons]
      obtain ⟨l1, h1, hn1, hs1⟩ := step_mono dev ifn es h
      obtain ⟨l2, h2, hn2, hs2⟩ := ih h1
      exact ⟨l2, h2, by rw [hn2, hn1], fun x hx => hs2 x (hs1 x hx)⟩

/-- Processing one device's ledger preserves the link invariant under the
good side conditions. -/
theorem devrun_inone {st : LinkState} {dev : String} {cd : List (String × List ConnEntry)}
    (h : InOne st) (hg : GoodDevRun st dev cd) : InOne (writeDevConns st dev cd) := by
  induction cd generalizing st with
  | nil => exact h
  | cons p rest ih =>
      obtain ⟨ifn, es⟩ := p
      obtain ⟨hg1, hg2⟩ := hg
      rw [writeDevConns_cons]
      exact ih (step_inone h hg1) hg2

/-- After one device's ledger is processed, every bucket's local interface
shares a link with all its referenced remote interfaces. -/
theorem devrun_shares (st : LinkState) (dev : String) {ifn : String} {es : List ConnEntry}
    {cd : List (String × List ConnEntry)} (hmem : (ifn, es) ∈ cd) :
    ∃ k l, lget (writeDevConns st dev cd) k = some l ∧ (dev, ifn) ∈ l.members ∧
      ∀ en ∈ es, (en.dest_host, en.dest_port) ∈ l.members := by
  induction cd generalizing st with
  | nil => exact absurd hmem (List.not_mem_nil _)
  | cons p rest ih =>
      obtain ⟨ifn0, es0⟩ := p
      rw [writeDevConns_cons]
      rcases List.mem_cons.mp hmem with h0 | hr
      · injection h0 with h1 h2
        subst h1
        subst h2
        obtain ⟨k, l, hget, hloc, hrem⟩ := step_shares dev st ifn es
        obtain ⟨l', hget', _, hsub⟩ := devrun_mono hget
        exact ⟨k, l', hget', hsub _ hloc, fun en hen => hsub _ (hrem en hen)⟩
      · exact ih _ hr

/-- Unfolding of the connection-dict write on a device with a real ledger. -/
theorem write_cons_some (dev : String) (cd : ConnDict)
    (rest : List (String × Option ConnDict)) (st : LinkState) :
    write_connections_to_testbed ((dev, some cd) :: rest) st
      = write_connections_to_testbed rest (writeDevConns st dev cd) := rfl

/-- The whole write only grows links. -/
theorem run_mono {dict : List (String × Option ConnDict)} {st st' : LinkState}
    (hw : write_connections_to_testbed dict st = .ok st')
    {k : Nat} {l : TLink} (h : lget st k = some l) :
    ∃ l', lget st' k = some l' ∧ ∀ x ∈ l.members, x ∈ l'.members := by
  induction dict generalizing st l with
  | nil =>
      injection hw with hw'
      subst hw'
      exact ⟨l, h, fun x hx => hx⟩
  | cons p rest ih =>
      obtain ⟨dev, ocd⟩ := p
      cases ocd with
      | none => exact absurd hw (by simp [write_connections_to_testbed])
      | some cd =>
          rw [write_cons_some] at hw
          obtain ⟨l1, h1, _, hs1⟩ := devrun_mono h
          obtain ⟨l2, h2, hs2⟩ := ih hw h1
          exact ⟨l2, h2, fun x hx => hs2 x (hs1 x hx)⟩

/-- The whole write preserves the link invariant under the good run
condition. -/
theorem run_inone {dict : List (String × Option ConnDict)} {st st' : LinkState}
    (h : InOne st) (hg : GoodRun st dict)
    (hw : write_connections_to_testbed dict st = .ok st') : InOne st' := by
  induction dict generalizing st with
  | nil =>
      injection hw with hw'
      subst hw'
      exact h
  | cons p rest ih =>
      obtain ⟨dev, ocd⟩ := p
      cases ocd with
      | none => exact absurd hw (by simp [write_connections_to_testbed])
      | some cd =>
          rw [write_cons_some] at hw
          obtain ⟨hg1, hg2⟩ := hg
          exact ih (devrun_inone h hg1) hg2 hw

/-- After the whole write, every recorded adjacency's local interface shares
a link with all its referenced remote interfaces. -/
theorem run_shares {dict : List (String × Option ConnDict)} {st st' : LinkState}
    {dev : String} {cd : ConnDict} {ifn : String} {es : List ConnEntry}
    (hw : write_connections_to_testbed dict st = .ok st')
    (hd : (dev, some cd) ∈ dict) (hi : (ifn, es) ∈ cd) :
    ∃ k l, lget st' k = some l ∧ (dev, ifn) ∈ l.members ∧
      ∀ en ∈ es, (en.dest_host, en.dest_port) ∈ l.members := by
  induction dict generalizing st with
  | nil => exact absurd hd (List.not_mem_nil _)
  | cons p rest ih =>
      obtain ⟨dev0, ocd0⟩ := p
      rcases List.mem_cons.mp hd with h0 | hr
      · injection h0 with h1 h2
        subst h1
        cases ocd0 with
        | none => exact absurd h2 (by simp)
        | some cd0 =>
            have hcd : cd = cd0 := Option.some.inj h2
            subst hcd
            rw [write_cons_some] at hw
            obtain ⟨k, l, hget, hloc, hrem⟩ := devrun_shares st dev hi
            obtain ⟨l', hget', hsub⟩ := run_mono hw hget
            exact ⟨k, l', hget', hsub _ hloc, fun en hen => hsub _ (hrem en hen)⟩
      · cases ocd0 with
        | none => exact absurd hw (by simp [write_connections_to_testbed])
        | some cd0 =>
            rw [write_cons_some] at hw
            exact ih hw hr

/-- Claim C6 (counterexample): the claim says get_os returns nxos whenever
NX-OS appears, the check being independent of the IOS branch; but on a
system string containing both NX-OS and an IOS substring (here inside
BIOS) the source returns from the IOS branch and never reaches the NX-OS
test, so it yields ios, not nxos. -/
theorem c6_get_os_cex :
    get_os "NX-OS BIOS" "" = some "ios"
      ∧ strIn "NX-OS" "NX-OS BIOS" = true
      ∧ strIn "IOS" "NX-OS BIOS" = true
      ∧ some "ios" ≠ some "nxos" := by
  refine ⟨by decide, by decide, by decide, by decide⟩

/-- Claim C6 (amended): get_os returns iosxe when IOS and XE markers appear,
else iosxr when IOS and XR appear, else ios when IOS appears; nxos is
returned only when NX-OS appears and no IOS marker does (the NX-OS test is
a separate if statement but is reachable only when the IOS branch did not
return); and None when no marker matches. -/
theorem c6_get_os_amended (s p : String) :
    ((strIn "IOS" s || strIn "IOS" p) = true → (strIn "XE" s || strIn "XE" p) = true →
        get_os s p = some "iosxe")
    ∧ ((strIn "IOS" s || strIn "IOS" p) = true → (strIn "XE" s || strIn "XE" p) = false →
        (strIn "XR" s || strIn "XR" p) = true → get_os s p = some "iosxr")
    ∧ ((strIn "IOS" s || strIn "IOS" p) = true → (strIn "XE" s || strIn "XE" p) = false →
        (strIn "XR" s || strIn "XR" p) = false → get_os s p = some "ios")
    ∧ ((strIn "IOS" s || strIn "IOS" p) = false →
        (strIn "NX-OS" s || strIn "NX-OS" p) = true → get_os s p = some "nxos")
    ∧ ((strIn "IOS" s || strIn "IOS" p) = false →
        (strIn "NX-OS" s || strIn "NX-OS" p) = false → get_os s p = none) := by
  refine ⟨?_, ?_, ?_, ?_, ?_⟩
  · intro h1 h2
    simp [get_os, h1, h2]
  · intro h1 h2 h3
    simp [get_os, h1, h2, h3]
  · intro h1 h2 h3
    simp [get_os, h1, h2, h3]
  · intro h1 h2
    simp [get_os, h1, h2]
  · intro h1 h2
    simp [get_os, h1, h2]

/-- Witness for the amended C6 theorem at concrete marker strings. -/
theorem c6_get_os_amended_witness :
    (strIn "IOS" "Cisco IOS Software" || strIn "IOS" "") = true
      ∧ (strIn "XE" "Cisco IOS Software" || strIn "XE" "") = false
      ∧ (strIn "XR" "Cisco IOS Software" || strIn "XR" "") = false
      ∧ get_os "Cisco IOS Software" "" = some "ios" :=
  ⟨by decide, by decide, by decide,
    (c6_get_os_amended "Cisco IOS Software" "").2.2.1 (by decide) (by decide) (by decide)⟩

/-- Claim C7 (counterexample): the claim says an adjacency is dropped only
when its local interface or remote port exactly matches an entry of the
exclusion interface list.  The source never splits the configured string
and tests Python substring membership, so with exclusion string
Ethernet0/1, an entry with local interface Ethernet0 (an exact match of no
entry) is dropped: processing it leaves the registry and the ledger empty,
while with an empty exclusion string the same entry is recorded. -/
theorem c7_interface_filter_cex :
    processCdpEntry cfgEth01 [] "R1" entryEth0 [] [] = ([], [])
    ∧ excludeListExact "Ethernet0/1" "Ethernet0" = false
    ∧ excludeListExact "Ethernet0/1" "E9" = false
    ∧ processCdpEntry cfgPlain [] "R1" entryEth0 [] [] ≠ ([], []) := by
  refine ⟨by decide, by decide, by decide, by decide⟩

/-- Claim C7 (amended): in both the CDP and LLDP paths an adjacency is
dropped by the interface filter exactly when its local interface name or
its remote port name occurs as a substring of the raw configured
exclude-interfaces string (which subsumes every exact entry match but also
drops mere substrings); when neither name is such a substring and no other
filter fires, the adjacency is recorded through the registry and ledger
operations. -/
theorem c7_interface_filter_amended (cfg : Config) (testbed : List String)
    (device_name : String) :
    (∀ e dl dc,
      (strIn e.local_interface cfg.exclude_interfaces = true
        ∨ strIn e.port_id cfg.exclude_interfaces = true) →
      processCdpEntry cfg testbed device_name e dl dc = (dl, dc))
    ∧ (∀ e dl dc,
      strIn e.local_interface cfg.exclude_interfaces = false →
      strIn e.port_id cfg.exclude_interfaces = false →
      (cfg.only_links && !testbed.contains (cdpDestHost e)) = false →
      addrExcludedCdp cfg e = false →
      processCdpEntry cfg testbed device_name e dl dc
        = (add_to_device_list dl (cdpDestHost e) e.port_id
            (e.interface_addresses.map some) (e.management_addresses.map some)
            (get_os e.software_version e.platform) device_name e.local_interface,
           add_to_device_connections dc (cdpDestHost e) e.port_id e.local_interface
             device_name))
    ∧ (∀ interface dest_port k0 nb0 restN dl dc,
      (strIn interface cfg.exclude_interfaces = true
        ∨ strIn dest_port cfg.exclude_interfaces = true) →
      lldpNeighborStep cfg testbed device_name interface dest_port
          ((k0, nb0) :: restN) dl dc = .ok (dl, dc))
    ∧ (∀ interface dest_port k0 nb0 restN neighbor dl dc,
      strIn interface cfg.exclude_interfaces = false →
      strIn dest_port cfg.exclude_interfaces = false →
      (cfg.only_links && !testbed.contains (domainFilter k0)) = false →
      alookup ((k0, nb0) :: restN) (domainFilter k0) = some neighbor →
      lldpAddrExcluded cfg neighbor = false →
      lldpNeighborStep cfg testbed device_name interface dest_port
          ((k0, nb0) :: restN) dl dc
        = .ok (add_to_device_list dl (domainFilter k0) dest_port []
                 [lldpMgmtAddr neighbor] (get_os neighbor.system_description "")
                 device_name interface,
               add_to_device_connections dc (domainFilter k0) dest_port interface
                 device_name)) := by
  refine ⟨?_, ?_, ?_, ?_⟩
  · intro e dl dc h
    unfold processCdpEntry
    rcases h with h | h
    · by_cases ho : (cfg.only_links && !testbed.contains (cdpDestHost e)) = true
      · rw [if_pos ho]
      · rw [if_neg ho, if_pos h]
    · by_cases ho : (cfg.only_links && !testbed.contains (cdpDestHost e)) = true
      · rw [if_pos ho]
      · rw [if_neg ho]
        by_cases hl : strIn e.local_interface cfg.exclude_interfaces = true
        · rw [if_pos hl]
        · rw [if_neg hl, if_pos h]
  · intro e dl dc h1 h2 ho ha
    unfold processCdpEntry
    rw [ho]
    simp [h1, h2, ha]
  · intro interface dest_port k0 nb0 restN dl dc h
    unfold lldpNeighborStep
    dsimp only
    rcases h with h | h
    · by_cases ho : (cfg.only_links && !testbed.contains (domainFilter k0)) = true
      · rw [if_pos ho]
      · rw [if_neg ho, if_pos h]
    · by_cases ho : (cfg.only_links && !testbed.contains (domainFilter k0)) = true
      · rw [if_pos ho]
      · rw [if_neg ho]
        by_cases hl : strIn interface cfg.exclude_interfaces = true
        · rw [if_pos hl]
        · rw [if_neg hl, if_pos h]
  · intro interface dest_port k0 nb0 restN neighbor dl dc h1 h2 ho hn ha
    unfold lldpNeighborStep
    dsimp only
    rw [ho]
    simp [h1, h2, hn, ha]

/-- Witness for the amended C7 theorem: a dropped substring match and a
recorded clean entry on both paths, at concrete inputs. -/
theorem c7_interface_filter_amended_witness :
    (strIn "Ethernet0" "Ethernet0/1" = true ∨ strIn "E9" "Ethernet0/1" = true)
      ∧ processCdpEntry cfgEth01 [] "R1" entryEth0 [] [] = ([], [])
      ∧ (strIn "net0/1" "Ethernet0/1" = true ∨ strIn "E8" "Ethernet0/1" = true)
      ∧ lldpNeighborStep cfgEth01 [] "R1" "net0/1" "E8" [("R9", nbBare)] [] []
        = .ok ([], []) := by
  refine ⟨Or.inl (by decide), ?_, Or.inl (by decide), ?_⟩
  · exact (c7_interface_filter_amended cfgEth01 [] "R1").1 entryEth0 [] []
      (Or.inl (by decide))
  · exact (c7_interface_filter_amended cfgEth01 [] "R1").2.2.1
      "net0/1" "E8" "R9" nbBare [] [] [] (Or.inl (by decide))

/-- Claim C8 (code bug, evaluated at the failing input): with R1 already in
the registry, recording a neighbor R2 found by R1 on local interface E1 is
claimed to add E1 to R1's port set; the source instead adds E1 to R2's
port set (line 461 updates dest_host, against its own comment saying
"add new interfaces for discovering device"), leaving R1's ports
unchanged. -/
theorem c8_discoverer_ports_bug :
    add_to_device_list [("R1", ⟨["E0"], none, none, none, false⟩)]
        "R2" "E2" [] [] none "R1" "E1"
      = [("R1", ⟨["E0"], none, none, none, false⟩),
         ("R2", ⟨["E2", "E1"], some [], some none, some ("R1", []), true⟩)]
      ∧ "E1" ∉ (["E0"] : List String) := by
  refine ⟨by decide, by decide⟩

/-- Claim C4: a second add_to_device_connections call with the same
(localInterface, remoteHost, remotePort) triple is a no-op, and from a
ledger holding no record for the triple the calls leave exactly one record
for it; reprocessing the same neighbor data therefore never duplicates an
entry. -/
theorem c4_ledger_idempotent (dc : ConnDict) (dest_host dest_port interface dev : String) :
    add_to_device_connections
        (add_to_device_connections dc dest_host dest_port interface dev)
        dest_host dest_port interface dev
      = add_to_device_connections dc dest_host dest_port interface dev
    ∧ (countEntry dc interface dest_host dest_port = 0 →
        countEntry
          (add_to_device_connections
            (add_to_device_connections dc dest_host dest_port interface dev)
            dest_host dest_port interface dev)
          interface dest_host dest_port = 1) := by
  cases h : alookup dc interface with
  | none =>
      have e1 : add_to_device_connections dc dest_host dest_port interface dev
          = dc ++ [(interface, [{ dest_host := dest_host, dest_port := dest_port }])] := by
        unfold add_to_device_connections
        rw [h]
      have hlk : alookup
          (dc ++ [(interface, [{ dest_host := dest_host, dest_port := dest_port }])])
          interface
          = some [{ dest_host := dest_host, dest_port := dest_port }] := by
        rw [alookup_append_none _ h]
        simp [alookup]
      have e2 : add_to_device_connections
          (dc ++ [(interface, [{ dest_host := dest_host, dest_port := dest_port }])])
          dest_host dest_port interface dev
          = dc ++ [(interface, [{ dest_host := dest_host, dest_port := dest_port }])] := by
        unfold add_to_device_connections
        rw [hlk]
        simp
      constructor
      · rw [e1, e2]
      · intro _
        rw [e1, e2]
        unfold countEntry
        rw [hlk]
        simp
  | some entries =>
      have e1 : add_to_device_connections dc dest_host dest_port interface dev
          = if entries.any (fun e => e.dest_host = dest_host && e.dest_port = dest_port)
            then dc
            else aupdate dc interface
              (entries ++ [{ dest_host := dest_host, dest_port := dest_port }]) := by
        unfold add_to_device_connections
        rw [h]
      by_cases hany :
          entries.any (fun e => e.dest_host = dest_host && e.dest_port = dest_port) = true
      · rw [if_pos hany] at e1
        constructor
        · rw [e1, e1]
        · intro h0
          exfalso
          obtain ⟨x, hx, hpx⟩ := List.any_eq_true.mp hany
          have hxf : x ∈ entries.filter
              (fun e => e.dest_host = dest_host && e.dest_port = dest_port) :=
            List.mem_filter.mpr ⟨hx, hpx⟩
          unfold countEntry at h0
          rw [h] at h0
          have : entries.filter
              (fun e => e.dest_host = dest_host && e.dest_port = dest_port) = [] :=
            List.length_eq_zero.mp h0
          rw [this] at hxf
          exact absurd hxf (List.not_mem_nil x)
      · rw [if_neg hany] at e1
        have hlk2 : alookup
            (aupdate dc interface
              (entries ++ [{ dest_host := dest_host, dest_port := dest_port }]))
            interface
            = some (entries ++ [{ dest_host := dest_host, dest_port := dest_port }]) :=
          alookup_aupdate_self _ h
        have e2 : add_to_device_connections
            (aupdate dc interface
              (entries ++ [{ dest_host := dest_host, dest_port := dest_port }]))
            dest_host dest_port interface dev
            = aupdate dc interface
              (entries ++ [{ dest_host := dest_host, dest_port := dest_port }]) := by
          unfold add_to_device_connections
          rw [hlk2]
          simp
        constructor
        · rw [e1, e2]
        · intro h0
          rw [e1, e2]
          unfold countEntry at h0 ⊢
          rw [h] at h0
          rw [hlk2]
          have hfe : entries.filter
              (fun e => e.dest_host = dest_host && e.dest_port = dest_port) = [] :=
            List.length_eq_zero.mp h0
          simp [List.filter_append, hfe]

/-- Witness for the C4 theorem at a concrete ledger. -/
theorem c4_ledger_idempotent_witness :
    countEntry [] "E1" "R2" "E2" = 0
      ∧ countEntry
          (add_to_device_connections
            (add_to_device_connections [] "R2" "E2" "E1" "R1") "R2" "E2" "E1" "R1")
          "E1" "R2" "E2" = 1 :=
  ⟨by decide, (c4_ledger_idempotent [] "R2" "E2" "E1" "R1").2 (by decide)⟩

/-- A merge never loses an already-resolved OS value. -/
theorem mergeFact_os_of_resolved {f : DeviceFact} {v : String}
    (hos : f.os = some (some v)) (dest_port : String) (mgmt : List Addr)
    (osg : Option String) : (mergeFact f dest_port mgmt osg).os = some (some v) := by
  unfold mergeFact
  by_cases hn : (!f.new_device) = true
  · rw [if_pos hn]
    exact hos
  · rw [if_neg hn, hos]

/-- A merge fills an unresolved OS of a genuine pending fact from the
guess. -/
theorem mergeFact_os_of_unresolved {f : DeviceFact} (hos : f.os = some none)
    (hn : f.new_device = true) (dest_port : String) (mgmt : List Addr)
    (osg : Option String) : (mergeFact f dest_port mgmt osg).os = some osg := by
  simp [mergeFact, hn, hos]

/-- The finder phase never changes the destination fact's OS field. -/
theorem registerFinder_os (dl1 : DeviceList) (dest_host discover interface : String)
    {g : DeviceFact} (hlk : alookup dl1 dest_host = some g) :
    ∃ f2, alookup (registerFinder dl1 dest_host discover interface) dest_host = some f2
      ∧ f2.os = g.os := by
  unfold registerFinder
  cases hd : alookup dl1 discover with
  | none =>
      exact ⟨g, alookup_append_some _ hlk, rfl⟩
  | some w =>
      dsimp only
      rw [hlk]
      exact ⟨{ g with ports := setAdd g.ports interface },
        alookup_aupdate_self _ hlk, rfl⟩

/-- Claim C5: once a registry fact's OS is non-None, a later
add_to_device_list call for the same remote host (with any different or
absent guess) leaves the OS unchanged; and the OS is filled from the guess
exactly when the stored OS is None on a genuine pending fact. -/
theorem c5_os_never_regressed (dl : DeviceList) (dest_host dest_port : String)
    (int_a mgmt_a : List Addr) (osg : Option String) (discover interface : String)
    (f : DeviceFact) (hf : alookup dl dest_host = some f) :
    (∀ v, f.os = some (some v) →
      ∃ f2, alookup (add_to_device_list dl dest_host dest_port int_a mgmt_a osg
          discover interface) dest_host = some f2 ∧ f2.os = some (some v))
    ∧ (f.os = some none → f.new_device = true →
      ∃ f2, alookup (add_to_device_list dl dest_host dest_port int_a mgmt_a osg
          discover interface) dest_host = some f2 ∧ f2.os = some osg) := by
  have hreg : registerDest dl dest_host dest_port int_a mgmt_a osg discover
      = aupdate dl dest_host (mergeFact f dest_port mgmt_a osg) := by
    unfold registerDest
    rw [hf]
  have hlk : alookup (registerDest dl dest_host dest_port int_a mgmt_a osg discover)
      dest_host = some (mergeFact f dest_port mgmt_a osg) := by
    rw [hreg]
    exact alookup_aupdate_self _ hf
  constructor
  · intro v hv
    obtain ⟨f2, h2, e2⟩ := registerFinder_os _ dest_host discover interface hlk
    refine ⟨f2, h2, ?_⟩
    rw [e2]
    exact mergeFact_os_of_resolved hv dest_port mgmt_a osg
  · intro hv hn
    obtain ⟨f2, h2, e2⟩ := registerFinder_os _ dest_host discover interface hlk
    refine ⟨f2, h2, ?_⟩
    rw [e2]
    exact mergeFact_os_of_unresolved hv hn dest_port mgmt_a osg

/-- Witness for the C5 theorem: a fact resolved to iosxe keeps it against a
later nxos guess. -/
theorem c5_os_never_regressed_witness :
    alookup [("R2", (⟨["E2"], some [], some (some "iosxe"), some ("R1", []), true⟩ :
        DeviceFact))] "R2"
      = some ⟨["E2"], some [], some (some "iosxe"), some ("R1", []), true⟩
    ∧ ∃ f2, alookup (add_to_device_list
        [("R2", ⟨["E2"], some [], some (some "iosxe"), some ("R1", []), true⟩)]
        "R2" "E3" [] [] (some "nxos") "R1" "E1") "R2" = some f2
      ∧ f2.os = some (some "iosxe") :=
  ⟨by decide,
    (c5_os_never_regressed
      [("R2", ⟨["E2"], some [], some (some "iosxe"), some ("R1", []), true⟩)]
      "R2" "E3" [] [] (some "nxos") "R1" "E1"
      ⟨["E2"], some [], some (some "iosxe"), some ("R1", []), true⟩ (by decide)).1
      "iosxe" rfl⟩

/-- Claim C3: an adjacency one of whose candidate interface or management
addresses lies in a configured excluded network range is recorded in
neither the registry nor the ledger, on the CDP path and on the LLDP
path. -/
theorem c3_excluded_network_never_recorded :
    (∀ cfg testbed device_name (e : CdpEntry) dl dc ip net,
      net ∈ cfg.exclude_networks →
      (ip ∈ e.interface_addresses ∨ ip ∈ e.management_addresses) →
      ipInNet ip net = true →
      processCdpEntry cfg testbed device_name e dl dc = (dl, dc))
    ∧ (∀ cfg testbed device_name interface dest_port k0 nb0 restN
        (neighbor : LldpNeighbor) dl dc ip net,
      net ∈ cfg.exclude_networks →
      alookup ((k0, nb0) :: restN) (domainFilter k0) = some neighbor →
      lldpMgmtAddr neighbor = some ip →
      ipInNet ip net = true →
      lldpNeighborStep cfg testbed device_name interface dest_port
        ((k0, nb0) :: restN) dl dc = .ok (dl, dc)) := by
  constructor
  · intro cfg testbed device_name e dl dc ip net hnet hip hin
    have hnets : cfg.exclude_networks.any (fun n => ipInNet ip n) = true :=
      List.any_eq_true.mpr ⟨net, hnet, hin⟩
    have hexcl : addrExcludedCdp cfg e = true := by
      unfold addrExcludedCdp
      simp only [Bool.or_eq_true]
      rcases hip with hip | hip
      · exact Or.inl (List.any_eq_true.mpr ⟨ip, hip, hnets⟩)
      · exact Or.inr (List.any_eq_true.mpr ⟨ip, hip, hnets⟩)
    unfold processCdpEntry
    by_cases ho : (cfg.only_links && !testbed.contains (cdpDestHost e)) = true
    · rw [if_pos ho]
    · rw [if_neg ho]
      by_cases h1 : strIn e.local_interface cfg.exclude_interfaces = true
      · rw [if_pos h1]
      · rw [if_neg h1]
        by_cases h2 : strIn e.port_id cfg.exclude_interfaces = true
        · rw [if_pos h2]
        · rw [if_neg h2, if_pos hexcl]
  · intro cfg testbed device_name interface dest_port k0 nb0 restN neighbor dl dc
      ip net hnet hlook hma hin
    have hexcl : lldpAddrExcluded cfg neighbor = true := by
      unfold lldpAddrExcluded
      rw [hma]
      have hne : cfg.exclude_networks.isEmpty = false := by
        cases hE : cfg.exclude_networks with
        | nil => rw [hE] at hnet; exact absurd hnet (List.not_mem_nil net)
        | cons a l => rfl
      rw [hne]
      simp only [Bool.not_false, Bool.true_and]
      exact List.any_eq_true.mpr ⟨net, hnet, hin⟩
    unfold lldpNeighborStep
    dsimp only
    by_cases ho : (cfg.only_links && !testbed.contains (domainFilter k0)) = true
    · rw [if_pos ho]
    · rw [if_neg ho]
      by_cases h1 : strIn interface cfg.exclude_interfaces = true
      · rw [if_pos h1]
      · rw [if_neg h1]
        by_cases h2 : strIn dest_port cfg.exclude_interfaces = true
        · rw [if_pos h2]
        · rw [if_neg h2, hlook]
          dsimp only
          rw [if_pos hexcl]

/-- Witness for the C3 theorem: a CDP entry and an LLDP neighbor with
management address 150 inside the excluded range 100 to 200 leave empty
registry and ledger unchanged. -/
theorem c3_excluded_network_never_recorded_witness :
    ((⟨100, 200⟩ : Net) ∈ cfgRange.exclude_networks
      ∧ (150 ∈ entryMgmt150.interface_addresses ∨ 150 ∈ entryMgmt150.management_addresses)
      ∧ ipInNet 150 ⟨100, 200⟩ = true
      ∧ processCdpEntry cfgRange [] "R1" entryMgmt150 [] [] = ([], []))
    ∧ (alookup [("R2", nb150)] (domainFilter "R2") = some nb150
      ∧ lldpMgmtAddr nb150 = some 150
      ∧ lldpNeighborStep cfgRange [] "R1" "E1" "E2" [("R2", nb150)] [] []
          = .ok ([], [])) := by
  refine ⟨⟨by decide, Or.inr (by decide), by decide, ?_⟩, ⟨by decide, by decide, ?_⟩⟩
  · exact c3_excluded_network_never_recorded.1 cfgRange [] "R1" entryMgmt150 [] []
      150 ⟨100, 200⟩ (by decide) (Or.inr (by decide)) (by decide)
  · exact c3_excluded_network_never_recorded.2 cfgRange [] "R1" "E1" "E2" "R2" nb150
      [] nb150 [] [] 150 ⟨100, 200⟩ (by decide) (by decide) (by decide) (by decide)

/-- Claim C10: when the connection-selection loop finds a bare proxy name,
write_proxy_chain returns exactly the two-step chain through that proxy to
the finder's address and through the finder to the target interface
address, and leaves the stored connections untouched. -/
theorem c10_two_step_chain (conns : List (String × ConnDetail))
    (finder_name user ip : String) (j : Nat) (conn_ip pname : String)
    (hf : findSshProxy conns = some (j, conn_ip, .pstr pname)) :
    write_proxy_chain conns finder_name user ip
      = .ok (.rsteps [⟨pname, "ssh " ++ conn_ip⟩,
                      ⟨finder_name, "ssh " ++ user ++ "@" ++ ip⟩], conns) := by
  unfold write_proxy_chain
  rw [hf]

/-- Witness for the C10 theorem: the spec's example, a device discovered via
finder R1's interface address 172.16.0.9 with R1 reached through proxy
jump1. -/
theorem c10_two_step_chain_witness :
    findSshProxy connsStr = some (0, "10.1.1.1", .pstr "jump1")
    ∧ write_proxy_chain connsStr "R1" "admin" "172.16.0.9"
      = .ok (.rsteps [⟨"jump1", "ssh " ++ "10.1.1.1"⟩,
                      ⟨"R1", "ssh " ++ "admin" ++ "@" ++ "172.16.0.9"⟩], connsStr) :=
  ⟨by decide,
    c10_two_step_chain connsStr "R1" "admin" "172.16.0.9" 0 "10.1.1.1" "jump1"
      (by decide)⟩

/-- Undo the index shift applied to a recursive selection-loop result. -/
theorem shift_inv {o : Option (Nat × String × ProxyVal)} {j : Nat} {cip : String}
    {pv : ProxyVal} (h : o.map (fun t => (t.fst + 1, t.snd)) = some (j, cip, pv)) :
    ∃ j0, o = some (j0, cip, pv) ∧ j = j0 + 1 := by
  cases o with
  | none => exact absurd h (by simp)
  | some t =>
      obtain ⟨j0, c0, v0⟩ := t
      have h' : ((j0 + 1, c0, v0) : Nat × String × ProxyVal) = (j, cip, pv) :=
        Option.some.inj h
      have hj : j0 + 1 = j := congrArg Prod.fst h'
      have hc : c0 = cip := congrArg (fun q : Nat × String × ProxyVal => q.snd.fst) h'
      have hv : v0 = pv := congrArg (fun q : Nat × String × ProxyVal => q.snd.snd) h'
      exact ⟨j0, by rw [hc, hv], hj.symm⟩

/-- What a successful connection selection says about the stored list: the
connection at the returned index is not the defaults entry, has protocol
ssh, carries the returned proxy value, and its address is the returned
one. -/
theorem findSshProxy_spec {conns : List (String × ConnDetail)} {j : Nat}
    {cip : String} {pv : ProxyVal} (h : findSshProxy conns = some (j, cip, pv)) :
    ∃ nm d, lget conns j = some (nm, d) ∧ d.proxy = some pv ∧ d.ip = cip
      ∧ d.protocol = "ssh" := by
  induction conns generalizing j with
  | nil => exact absurd h (by simp [findSshProxy])
  | cons p rest ih =>
      obtain ⟨nm0, d0⟩ := p
      unfold findSshProxy at h
      by_cases hdef : nm0 = "defaults"
      · rw [if_pos hdef] at h
        obtain ⟨j0, ho, hj⟩ := shift_inv h
        obtain ⟨nm, d, hg, hrest⟩ := ih ho
        subst hj
        exact ⟨nm, d, hg, hrest⟩
      · rw [if_neg hdef] at h
        cases hp0 : d0.proxy with
        | some pv0 =>
            rw [hp0] at h
            dsimp only at h
            by_cases hpr : d0.protocol = "ssh"
            · rw [if_pos hpr] at h
              have h' : ((0, d0.ip, pv0) : Nat × String × ProxyVal) = (j, cip, pv) :=
                Option.some.inj h
              have hj : 0 = j := congrArg Prod.fst h'
              have hc : d0.ip = cip := congrArg
                (fun q : Nat × String × ProxyVal => q.snd.fst) h'
              have hv : pv0 = pv := congrArg
                (fun q : Nat × String × ProxyVal => q.snd.snd) h'
              refine ⟨nm0, d0, ?_, ?_, hc, hpr⟩
              · rw [← hj]
                rfl
              · rw [hp0, hv]
            · rw [if_neg hpr] at h
              obtain ⟨j0, ho, hj⟩ := shift_inv h
              obtain ⟨nm, d, hg, hrest⟩ := ih ho
              subst hj
              exact ⟨nm, d, hg, hrest⟩
        | none =>
            rw [hp0] at h
            dsimp only at h
            obtain ⟨j0, ho, hj⟩ := shift_inv h
            obtain ⟨nm, d, hg, hrest⟩ := ih ho
            subst hj
            exact ⟨nm, d, hg, hrest⟩

/-- Claim C9 (counterexample): the claim says the chain extension is applied
to a copy and the finder's stored proxy list is left unchanged; evaluating
the source on a finder whose ssh connection stores a one-step chain shows
the stored list itself is rewritten and extended, so the connections after
the call differ from the connections before. -/
theorem c9_proxy_chain_mutation_cex :
    write_proxy_chain connsJump "R1" "admin" "172.16.0.9"
      = .ok (.rsteps [⟨"jump1", "ssh admin@10.0.0.1"⟩, ⟨"R1", "ssh admin@172.16.0.9"⟩],
             [("sshj", ⟨"ssh", "10.0.0.1",
               some (.plist [⟨"jump1", "ssh admin@10.0.0.1"⟩,
                             ⟨"R1", "ssh admin@172.16.0.9"⟩])⟩)])
    ∧ [("sshj", (⟨"ssh", "10.0.0.1",
          some (.plist [⟨"jump1", "ssh admin@10.0.0.1"⟩,
                        ⟨"R1", "ssh admin@172.16.0.9"⟩])⟩ : ConnDetail))]
        ≠ connsJump := by
  refine ⟨rfl, by decide⟩

/-- Claim C9 (amended): when the finder's selected ssh connection stores an
ordered hop-step chain, write_proxy_chain returns that chain with its last
step's command rewritten to connect to the finder's own connection address
and a final finder step appended; the extension is applied to the stored
list itself (the same list object), so after the call the stored proxy
value equals the extended chain and differs from the stored value before
the call. -/
theorem c9_proxy_chain_amended (conns : List (String × ConnDetail))
    (finder_name user ip : String) (j : Nat) (cip : String)
    (steps : List Step) (lastStep : Step)
    (hf : findSshProxy conns = some (j, cip, .plist steps))
    (hl : steps.getLast? = some lastStep) :
    ∃ nm d, lget conns j = some (nm, d)
      ∧ d.proxy = some (.plist steps)
      ∧ write_proxy_chain conns finder_name user ip
          = .ok (.rsteps (steps.dropLast
                ++ [⟨lastStep.device, "ssh " ++ user ++ "@" ++ cip⟩,
                    ⟨finder_name, "ssh " ++ user ++ "@" ++ ip⟩]),
              lset conns j (nm, { d with proxy := some (.plist (steps.dropLast
                ++ [⟨lastStep.device, "ssh " ++ user ++ "@" ++ cip⟩,
                    ⟨finder_name, "ssh " ++ user ++ "@" ++ ip⟩])) }))
      ∧ some (ProxyVal.plist (steps.dropLast
            ++ [⟨lastStep.device, "ssh " ++ user ++ "@" ++ cip⟩,
                ⟨finder_name, "ssh " ++ user ++ "@" ++ ip⟩]))
          ≠ d.proxy := by
  obtain ⟨nm, d, hg, hp, hi, hpr⟩ := findSshProxy_spec hf
  refine ⟨nm, d, hg, hp, ?_, ?_⟩
  · unfold write_proxy_chain
    rw [hf]
    dsimp only
    rw [hl]
    dsimp only
    unfold setProxyAt
    rw [hg]
  · rw [hp]
    intro heq
    have hle : (steps.dropLast
        ++ [(⟨lastStep.device, "ssh " ++ user ++ "@" ++ cip⟩ : Step),
            ⟨finder_name, "ssh " ++ user ++ "@" ++ ip⟩]) = steps := by
      have := Option.some.inj heq
      exact ProxyVal.plist.inj this
    have hnully : steps ≠ [] := by
      intro hnil
      rw [hnil] at hl
      exact absurd hl (by simp)
    have hlen := congrArg List.length hle
    rw [List.length_append, List.length_dropLast] at hlen
    have hpos : 0 < steps.length := List.length_pos.mpr hnully
    simp at hlen
    omega

/-- Witness for the amended C9 theorem at a concrete one-step stored
chain. -/
theorem c9_proxy_chain_amended_witness :
    findSshProxy connsJump = some (0, "10.0.0.1", .plist [⟨"jump1", "ssh 10.0.0.1"⟩])
    ∧ ([(⟨"jump1", "ssh 10.0.0.1"⟩ : Step)]).getLast? = some ⟨"jump1", "ssh 10.0.0.1"⟩
    ∧ ∃ nm d, lget connsJump 0 = some (nm, d)
      ∧ d.proxy = some (.plist [⟨"jump1", "ssh 10.0.0.1"⟩])
      ∧ write_proxy_chain connsJump "R1" "admin" "172.16.0.9"
          = .ok (.rsteps [⟨"jump1", "ssh admin@10.0.0.1"⟩, ⟨"R1", "ssh admin@172.16.0.9"⟩],
              lset connsJump 0 (nm, { d with proxy := some (.plist [⟨"jump1", "ssh admin@10.0.0.1"⟩, ⟨"R1", "ssh admin@172.16.0.9"⟩]) }))
      ∧ some (ProxyVal.plist [⟨"jump1", "ssh admin@10.0.0.1"⟩, ⟨"R1", "ssh admin@172.16.0.9"⟩])
          ≠ d.proxy :=
  ⟨by decide, by decide,
    c9_proxy_chain_amended connsJump "R1" "admin" "172.16.0.9" 0 "10.0.0.1"
      [⟨"jump1", "ssh 10.0.0.1"⟩] ⟨"jump1", "ssh 10.0.0.1"⟩ (by decide) (by decide)⟩

/-- An element of an updated association list is an old element or the
updated pair. -/
theorem mem_aupdate {α : Type} {l : List (String × α)} {k : String} {v : α}
    {kv : String × α} (h : kv ∈ aupdate l k v) : kv ∈ l ∨ kv = (k, v) := by
  induction l with
  | nil => exact absurd h (List.not_mem_nil kv)
  | cons p rest ih =>
      obtain ⟨k0, v0⟩ := p
      unfold aupdate at h
      by_cases hk : k0 = k
      · rw [if_pos hk] at h
        rcases List.mem_cons.mp h with h0 | h0
        · exact Or.inr (by rw [h0, hk])
        · exact Or.inl (List.mem_cons_of_mem _ h0)
      · rw [if_neg hk] at h
        rcases List.mem_cons.mp h with h0 | h0
        · exact Or.inl (h0 ▸ List.mem_cons_self _ _)
        · rcases ih h0 with h1 | h1
          · exact Or.inl (List.mem_cons_of_mem _ h1)
          · exact Or.inr h1

/-- Storing a None value keeps an all-None connection dict all None. -/
theorem aset_none_all {cd0 : List (String × Option ConnDict)} {k : String}
    (h : ∀ kv ∈ cd0, kv.snd = none) :
    ∀ kv ∈ aset cd0 k (none : Option ConnDict), kv.snd = none := by
  unfold aset
  by_cases hs : (alookup cd0 k).isSome = true
  · rw [if_pos hs]
    intro kv hkv
    rcases mem_aupdate hkv with h1 | h1
    · exact h kv h1
    · rw [h1]
  · rw [if_neg hs]
    intro kv hkv
    rcases List.mem_append.mp hkv with h1 | h1
    · exact h kv h1
    · rw [List.mem_singleton.mp h1]

/-- Claim C1: get_device_connections always returns Python None when it
returns at all (its return statement is commented out), so
process_neighbor_data maps every polled device to None, and as soon as at
least one device was polled, _write_connections_to_testbed raises
TypeError iterating that None; the per-device connection dictionary built
during processing is never returned to the caller. -/
theorem c1_connections_never_returned :
    (∀ cfg testbed data device_name dl r,
      get_device_connections cfg testbed data device_name dl = .ok r → r.fst = none)
    ∧ (∀ cfg testbed result cd0 dl cd dl',
      process_neighbor_data cfg testbed result cd0 dl = .ok (cd, dl') →
      (∀ kv ∈ cd0, kv.snd = none) → (∀ kv ∈ cd, kv.snd = none))
    ∧ (∀ (cd : List (String × Option ConnDict)) st,
      cd ≠ [] → (∀ kv ∈ cd, kv.snd = none) →
      write_connections_to_testbed cd st = .error .typeError) := by
  have hget : ∀ cfg testbed data device_name dl r,
      get_device_connections cfg testbed data device_name dl = .ok r → r.fst = none := by
    intro cfg testbed data device_name dl r h
    unfold get_device_connections at h
    cases hld : data.lldp with
    | none =>
        rw [hld] at h
        have h' := Except.ok.inj h
        rw [← h']
    | some lr =>
        rw [hld] at h
        dsimp only at h
        by_cases ht : lr.total_entries ≠ 0
        · rw [if_pos ht] at h
          cases hpl : process_lldp_information cfg testbed device_name lr
              (cdpPhase cfg testbed data device_name dl).fst
              (cdpPhase cfg testbed data device_name dl).snd with
          | error e =>
              rw [hpl] at h
              exact absurd h (by simp)
          | ok p =>
              rw [hpl] at h
              obtain ⟨dl2, dc2⟩ := p
              have h' := Except.ok.inj h
              rw [← h']
        · rw [if_neg ht] at h
          have h' := Except.ok.inj h
          rw [← h']
  have hpnd : ∀ cfg testbed result cd0 dl cd dl',
      process_neighbor_data cfg testbed result cd0 dl = .ok (cd, dl') →
      (∀ kv ∈ cd0, kv.snd = none) → (∀ kv ∈ cd, kv.snd = none) := by
    intro cfg testbed result
    have haux : ∀ entry cd0 dl cd dl',
        pndDevices cfg testbed entry cd0 dl = .ok (cd, dl') →
        (∀ kv ∈ cd0, kv.snd = none) → (∀ kv ∈ cd, kv.snd = none) := by
      intro entry
      induction entry with
      | nil =>
          intro cd0 dl cd dl' h hall
          have h' := Except.ok.inj h
          have hcd : cd0 = cd := congrArg Prod.fst h'
          rw [← hcd]
          exact hall
      | cons p rest ih =>
          intro cd0 dl cd dl' h hall
          obtain ⟨device, data⟩ := p
          unfold pndDevices at h
          cases hg : get_device_connections cfg testbed data device dl with
          | error e =>
              rw [hg] at h
              exact absurd h (by simp)
          | ok q =>
              rw [hg] at h
              obtain ⟨c, dl1⟩ := q
              have hc : c = none := hget cfg testbed data device dl (c, dl1) hg
              rw [hc] at h
              exact ih (aset cd0 device none) dl1 cd dl' h (aset_none_all hall)
    induction result with
    | nil =>
        intro cd0 dl cd dl' h hall
        have h' := Except.ok.inj h
        have hcd : cd0 = cd := congrArg Prod.fst h'
        rw [← hcd]
        exact hall
    | cons entry rest ih =>
        intro cd0 dl cd dl' h hall
        unfold process_neighbor_data at h
        cases hp : pndDevices cfg testbed entry cd0 dl with
        | error e =>
            rw [hp] at h
            exact absurd h (by simp)
        | ok q =>
            rw [hp] at h
            obtain ⟨cd1, dl1⟩ := q
            exact ih cd1 dl1 cd dl' h (haux entry cd0 dl cd1 dl1 hp hall)
  refine ⟨hget, hpnd, ?_⟩
  intro cd st hne hall
  cases cd with
  | nil => exact absurd rfl hne
  | cons p rest =>
      obtain ⟨d, oc⟩ := p
      have : oc = none := hall (d, oc) (List.mem_cons_self _ _)
      rw [this]
      rfl

/-- Witness for the C1 theorem: one polled device with one clean CDP
neighbor yields a connection dict mapping it to None, and writing that
dict raises TypeError. -/
theorem c1_connections_never_returned_witness :
    process_neighbor_data cfgPlain ["R1"] [[("R1", dataR1)]] [] []
      = .ok ([("R1", none)],
          [("R2", ⟨["E2"], some [], some none, some ("R1", []), true⟩),
           ("R1", ⟨["E1"], none, none, none, false⟩)])
    ∧ ([("R1", (none : Option ConnDict))] ≠ [])
    ∧ (∀ kv ∈ [("R1", (none : Option ConnDict))], kv.snd = none)
    ∧ write_connections_to_testbed [("R1", none)] [] = .error .typeError := by
  refine ⟨rfl, by decide, by decide, ?_⟩
  exact c1_connections_never_returned.2.2 [("R1", none)] [] (by decide) (by decide)

/-- Claim C2 (counterexample): processing a connection dictionary in which
interface B's own bucket is handled before the bucket that references B as
a remote interface makes the source create a second link containing B (it
checks remote interfaces only against int_list, not against existing
links), so B ends up in two distinct links and A, B, C do not share one
link. -/
theorem c2_link_invariant_cex :
    write_connections_to_testbed
        [("d2", some [("B", [⟨"d3", "C"⟩])]),
         ("d1", some [("A", [⟨"d2", "B"⟩])])] []
      = .ok [⟨"Link_0", [("d2", "B"), ("d3", "C")]⟩,
             ⟨"Link_1", [("d1", "A"), ("d2", "B")]⟩]
    ∧ ¬ InOne [⟨"Link_0", [("d2", "B"), ("d3", "C")]⟩,
               ⟨"Link_1", [("d1", "A"), ("d2", "B")]⟩]
    ∧ ¬ (∃ k l, lget [(⟨"Link_0", [("d2", "B"), ("d3", "C")]⟩ : TLink),
                      ⟨"Link_1", [("d1", "A"), ("d2", "B")]⟩] k = some l
          ∧ ("d1", "A") ∈ l.members ∧ ("d3", "C") ∈ l.members) := by
  refine ⟨rfl, ?_, ?_⟩
  · intro h
    have hbad := h 1 ⟨"Link_1", [("d1", "A"), ("d2", "B")]⟩ ("d2", "B") rfl (by decide)
    exact absurd hbad (by decide)
  · rintro ⟨k, l, hk, hA, hC⟩
    cases k with
    | zero =>
        have hl : l = ⟨"Link_0", [("d2", "B"), ("d3", "C")]⟩ :=
          (Option.some.inj hk).symm
        rw [hl] at hA
        exact absurd hA (by decide)
    | succ k1 =>
        cases k1 with
        | zero =>
            have hl : l = ⟨"Link_1", [("d1", "A"), ("d2", "B")]⟩ :=
              (Option.some.inj hk).symm
            rw [hl] at hC
            exact absurd hC (by decide)
        | succ k2 =>
            simp [lget] at hk

/-- Claim C2 (amended): provided every referenced remote interface either
has no link yet or already resolves to the same link as the local
interface at each processing step, _write_connections_to_testbed preserves
the at-most-one-link invariant, and transitively adjacent interfaces (A
connected to B, B connected to C in recorded buckets) end up in one and
the same link; unconditionally, when the local interface already has a
link, that link object is reused and extended in place and no new link is
created.  Without the proviso the invariant fails, as the counterexample
shows. -/
theorem c2_link_invariant_amended :
    (∀ dict st st', InOne st → GoodRun st dict →
      write_connections_to_testbed dict st = .ok st' →
      InOne st'
      ∧ (∀ dA iA dB iB dC iC cdA esA cdB esB,
          (dA, some cdA) ∈ dict → (iA, esA) ∈ cdA →
          (⟨dB, iB⟩ : ConnEntry) ∈ esA →
          (dB, some cdB) ∈ dict → (iB, esB) ∈ cdB →
          (⟨dC, iC⟩ : ConnEntry) ∈ esB →
          ∃ k l, lget st' k = some l ∧ (dA, iA) ∈ l.members
            ∧ (dB, iB) ∈ l.members ∧ (dC, iC) ∈ l.members))
    ∧ (∀ dev st ifn es i l0,
        linkIdx st (dev, ifn) = some i → lget st i = some l0 →
        (writeIfaceConns dev st ifn es).length = st.length
        ∧ ∃ l', lget (writeIfaceConns dev st ifn es) i = some l'
            ∧ l'.lname = l0.lname ∧ ∀ x ∈ l0.members, x ∈ l'.members) := by
  constructor
  · intro dict st st' hio hg hw
    have hio' := run_inone hio hg hw
    refine ⟨hio', ?_⟩
    intro dA iA dB iB dC iC cdA esA cdB esB hdA hiA heA hdB hiB heB
    obtain ⟨k1, l1, hk1, hA1, hrem1⟩ := run_shares hw hdA hiA
    obtain ⟨k2, l2, hk2, hB2, hrem2⟩ := run_shares hw hdB hiB
    have hB1 : (dB, iB) ∈ l1.members := hrem1 ⟨dB, iB⟩ heA
    have hC2 : (dC, iC) ∈ l2.members := hrem2 ⟨dC, iC⟩ heB
    have e1 : linkIdx st' (dB, iB) = some k1 := hio' k1 l1 (dB, iB) hk1 hB1
    have e2 : linkIdx st' (dB, iB) = some k2 := hio' k2 l2 (dB, iB) hk2 hB2
    have hk : k1 = k2 := Option.some.inj (e1.symm.trans e2)
    rw [← hk] at hk2
    have hl : l1 = l2 := Option.some.inj (hk1.symm.trans hk2)
    rw [← hl] at hC2
    exact ⟨k1, l1, hk1, hA1, hB1, hC2⟩
  · intro dev st ifn es i l0 hm hl0
    rw [writeIfaceConns_of_some hm hl0]
    refine ⟨lset_length _ _ _,
      ⟨{ lname := l0.lname, members := foldIns l0.members es },
        lget_lset_self _ (lget_some_lt hl0), rfl, ?_⟩⟩
    intro x hx
    exact mem_foldIns_of_mem _ hx

/-- Witness for the amended C2 theorem: the same topology processed in the
good order (A's bucket before B's) puts A, B and C into the single link
Link_0. -/
theorem c2_link_invariant_amended_witness :
    InOne ([] : LinkState)
    ∧ GoodRun [] [("d1", some [("A", [⟨"d2", "B"⟩])]),
                  ("d2", some [("B", [⟨"d3", "C"⟩])])]
    ∧ write_connections_to_testbed
        [("d1", some [("A", [⟨"d2", "B"⟩])]),
         ("d2", some [("B", [⟨"d3", "C"⟩])])] []
      = .ok [⟨"Link_0", [("d1", "A"), ("d2", "B"), ("d3", "C")]⟩]
    ∧ InOne [(⟨"Link_0", [("d1", "A"), ("d2", "B"), ("d3", "C")]⟩ : TLink)]
    ∧ (∃ k l, lget [(⟨"Link_0", [("d1", "A"), ("d2", "B"), ("d3", "C")]⟩ : TLink)] k
          = some l
        ∧ ("d1", "A") ∈ l.members ∧ ("d2", "B") ∈ l.members
        ∧ ("d3", "C") ∈ l.members) := by
  have hio : InOne ([] : LinkState) := fun k l ifc hk => nomatch hk
  have hg : GoodRun [] [("d1", some [("A", [⟨"d2", "B"⟩])]),
      ("d2", some [("B", [⟨"d3", "C"⟩])])] :=
    ⟨⟨fun en hen => by rw [List.mem_singleton.mp hen]; exact Or.inl rfl, trivial⟩,
     ⟨fun en hen => by rw [List.mem_singleton.mp hen]; exact Or.inl rfl, trivial⟩,
     trivial⟩
  have happ := c2_link_invariant_amended.1
    [("d1", some [("A", [⟨"d2", "B"⟩])]), ("d2", some [("B", [⟨"d3", "C"⟩])])]
    [] [⟨"Link_0", [("d1", "A"), ("d2", "B"), ("d3", "C")]⟩] hio hg rfl
  refine ⟨hio, hg, rfl, happ.1, ?_⟩
  exact happ.2 "d1" "A" "d2" "B" "d3" "C"
    [("A", [⟨"d2", "B"⟩])] [⟨"d2", "B"⟩] [("B", [⟨"d3", "C"⟩])] [⟨"d3", "C"⟩]
    (by decide) (by decide) (by decide) (by decide) (by decide) (by decide)

end Topo
